import Mathlib

/-!
# configfile: loading, migrating and resolving paths of `metadata.json`

A shallow embedding of `internal/configfile/configfile.go`.

* A Go string that is valid UTF-8 is a Lean `String` (a sequence of Unicode
  scalar values); a Go string in general is a `GoString`, a sequence of bytes.
  `Config` is the record over valid strings, which is what the decoder produces;
  `RawConfig` is the record over arbitrary Go strings, which is what a caller
  may hand to `Save`. Go `int` is `Int`, with the 64-bit range checked where the
  decoder checks it.
* The operating system is explicit state: the environment is a partial map from
  names to values, the file system (`FS`) a partial map from path strings to
  nodes, together with the process umask, whether the process overrides
  permission bits, and the errors the system reports when a path is looked up,
  opened for reading, opened for writing or unlinked (a directory on the way
  that may not be searched, a read-only mount, an immutable file).
* Paths follow the Unix behaviour of `path/filepath`.
* Functions that touch the file system take the state and, when they change it,
  return the new one.
-/

namespace Configfile

/-! ## path/filepath (Unix) -/

/-- The components of a path between its separators: `"a//b"` gives `a`, the
empty component, and `b`. -/
def splitSlash : List Char → List (List Char)
  | [] => [[]]
  | c :: cs =>
    if c = '/' then [] :: splitSlash cs
    else
      match splitSlash cs with
      | [] => [[c]]
      | h :: t => (c :: h) :: t

/-- One element of the lexical clean-up done by `filepath.Clean`. The stack
holds the elements kept so far, the last one first. Empty elements and `.` are
dropped; `..` removes the element before it, is dropped at the root, and is kept
at the front of a relative path. -/
def cleanStep (rooted : Bool) (stack : List (List Char)) (comp : List Char) :
    List (List Char) :=
  if comp = [] ∨ comp = ['.'] then stack
  else if comp = ['.', '.'] then
    match stack with
    | [] => if rooted then [] else [comp]
    | top :: below => if top = ['.', '.'] then comp :: stack else below
  else comp :: stack

/-- The kept elements (last one first) joined by the separator. -/
def renderRev : List (List Char) → List Char
  | [] => []
  | [x] => x
  | top :: below => renderRev below ++ '/' :: top

/-- The kept elements of a path after the clean-up, the last one first. -/
def cleanStack (p : List Char) : List (List Char) :=
  (splitSlash p).foldl (cleanStep (p.head? = some '/')) []

/-- Go `filepath.Clean`: the shortest path lexically equivalent to `path`. -/
def Clean (path : String) : String :=
  if path.data = [] then "."
  else
    let body := renderRev (cleanStack path.data)
    if path.data.head? = some '/' then String.mk ('/' :: body)
    else if body = [] then "."
    else String.mk body

/-- The elements joined by the separator, nothing dropped. -/
def joinSlash : List String → List Char
  | [] => []
  | [x] => x.data
  | x :: rest => x.data ++ '/' :: joinSlash rest

/-- Go `filepath.Join`: leading empty elements are ignored, the others are
joined by the separator and the result is cleaned; all elements empty gives the
empty string. -/
def Join (elem : List String) : String :=
  match elem.dropWhile (fun e => decide (e = "")) with
  | [] => ""
  | rest => Clean (String.mk (joinSlash rest))

/-! ## os: environment and file system -/

/-- The process environment. -/
abbrev Env := String → Option String

/-- Go `os.Getenv`: the value of the variable, empty when it is not set. -/
def Getenv (env : Env) (key : String) : String :=
  (env key).getD ""

/-- Error numbers of the system calls used here. -/
inductive Errno
  | ENOENT
  | EISDIR
  | EACCES
  | EPERM
  | EROFS
  | ENOSPC
  | ENOTEMPTY
  | ENOTDIR
  | ELOOP
  | ENAMETOOLONG
  deriving DecidableEq, Repr

/-- The reasons for which the system refuses to look up or to open an entry,
whether it is there or not: a directory on the way may not be searched, an
element of the path is not a directory, too many symbolic links, a name that is too long.
"No such file" is not among them: it is reported for an absent entry only. -/
inductive Refusal
  | EACCES
  | ENOTDIR
  | ELOOP
  | ENAMETOOLONG
  deriving DecidableEq, Repr

/-- The error number of a refusal. -/
def Refusal.toErrno : Refusal → Errno
  | .EACCES => .EACCES
  | .ENOTDIR => .ENOTDIR
  | .ELOOP => .ELOOP
  | .ENAMETOOLONG => .ENAMETOOLONG

/-- An entry of the file system: a regular file with its content and permission
bits, or a directory. -/
inductive Node
  | file (data : String) (mode : Nat)
  | dir (mode : Nat)
  deriving DecidableEq, Repr

/-- The state of the file system as the process sees it.

* `node p` is the entry at `p`, with its permission bits.
* `privileged` says that the process overrides permission bits (it runs as
  root); otherwise the owner bits of a file decide whether it may be opened for
  reading (0400) or for writing (0200).
* `statErr p` is the refusal the system reports when `p` is looked up,
  `readErr p` the one it reports when `p` is opened for reading, whether or not
  an entry is there (none: no refusal).
* `writeErr p` is the error the system reports when `p` is opened for writing
  (none: the open is allowed), `removeErr p` the one it reports when `p` is
  unlinked. -/
structure FS where
  node : String → Option Node
  umask : Nat
  privileged : Bool
  statErr : String → Option Refusal
  readErr : String → Option Refusal
  writeErr : String → Option Errno
  removeErr : String → Option Errno

/-- Errors of the encoding/json decoder: a syntax error in the input, or a JSON
value that does not fit the Go value it is decoded into. -/
inductive JSONError
  | malformed
  | typeMismatch (field : String)
  deriving DecidableEq, Repr

/-- Go error values: a path error of package os, an error of encoding/json, or
an error wrapped with a message by `fmt.Errorf("...: %w", err)`. -/
inductive Error
  | pathError (op : String) (path : String) (errno : Errno)
  | json (e : JSONError)
  | wrapped (msg : String) (cause : Error)
  deriving DecidableEq, Repr

deriving instance DecidableEq for Except

/-- Go `os.IsNotExist`, applied to an error returned by package os. It looks
at the path error itself and does not unwrap `%w`. -/
def IsNotExist : Error → Bool
  | .pathError _ _ .ENOENT => true
  | _ => false

/-- What `os.Stat` reports about an entry. -/
structure FileInfo where
  IsDir : Bool
  Mode : Nat
  deriving DecidableEq, Repr

/-- Go `os.Stat`: refused by the system, or the entry absent, or the
information about the entry. -/
def Stat (fs : FS) (name : String) : Except Error FileInfo :=
  match fs.statErr name with
  | some r => .error (.pathError "stat" name r.toErrno)
  | none =>
    match fs.node name with
    | none => .error (.pathError "stat" name .ENOENT)
    | some (.file _ mode) => .ok ⟨false, mode⟩
    | some (.dir mode) => .ok ⟨true, mode⟩

/-- An entry exists at the path. -/
def FS.Exists (fs : FS) (name : String) : Prop :=
  (fs.node name).isSome = true

/-- A directory exists at the path. -/
def FS.IsDir (fs : FS) (name : String) : Prop :=
  ∃ mode, fs.node name = some (.dir mode)

instance (fs : FS) (name : String) : Decidable (fs.Exists name) := by
  unfold FS.Exists; infer_instance

instance (fs : FS) (name : String) : Decidable (fs.IsDir name) :=
  match h : fs.node name with
  | some (.dir mode) => isTrue ⟨mode, h⟩
  | some (.file _ _) => isFalse (by rintro ⟨m, hm⟩; rw [h] at hm; cases hm)
  | none => isFalse (by rintro ⟨m, hm⟩; rw [h] at hm; cases hm)

/-- Go `os.Stat` succeeds on the path: an entry is there and the system lets
the process look it up. -/
def FS.StatOk (fs : FS) (name : String) : Prop :=
  ∃ info, Stat fs name = .ok info

/-- Go `os.Stat` succeeds on the path and reports a directory. -/
def FS.StatDir (fs : FS) (name : String) : Prop :=
  ∃ mode, Stat fs name = .ok ⟨true, mode⟩

instance (fs : FS) (name : String) : Decidable (fs.StatOk name) :=
  match h : Stat fs name with
  | .ok info => isTrue ⟨info, h⟩
  | .error _ => isFalse (by rintro ⟨i, hi⟩; rw [h] at hi; cases hi)

instance (fs : FS) (name : String) : Decidable (fs.StatDir name) :=
  match h : Stat fs name with
  | .ok ⟨true, mode⟩ => isTrue ⟨mode, h⟩
  | .ok ⟨false, _⟩ => isFalse (by rintro ⟨m, hm⟩; rw [h] at hm; cases hm)
  | .error _ => isFalse (by rintro ⟨m, hm⟩; rw [h] at hm; cases hm)

/-! ## The configuration record and its accessors -/

def ConfigFileName : String := "metadata.json"

structure Config where
  Database : String
  JSONLExport : String
  Backend : String
  Layout : String
  DeletionsRetentionDays : Int
  LastBdVersion : String
  deriving DecidableEq, Repr

def DefaultConfig : Config :=
  { Database := "beads.db"
    JSONLExport := "issues.jsonl"
    Backend := ""
    Layout := ""
    DeletionsRetentionDays := 0
    LastBdVersion := "" }

def ConfigPath (beadsDir : String) : String :=
  Join [beadsDir, ConfigFileName]

def LayoutV1 : String := "v1"
def LayoutV2 : String := "v2"

/-- Go `useVarLayout`: whether the var/ layout is active. -/
def Config.useVarLayout (c : Config) (env : Env) (fs : FS) (beadsDir : String) : Bool :=
  if Getenv env "BD_LEGACY_LAYOUT" = "1" then false
  else if c.Layout = LayoutV2 then true
  else if c.Layout = LayoutV1 ∨ c.Layout ≠ "" then false
  else
    let varDir := Join [beadsDir, "var"]
    match Stat fs varDir with
    | .ok info => info.IsDir
    | .error _ => false

/-- Go `DatabasePath`: the path of the database file. -/
def Config.DatabasePath (c : Config) (env : Env) (fs : FS) (beadsDir : String) : String :=
  if Getenv env "BD_LEGACY_LAYOUT" = "1" then Join [beadsDir, c.Database]
  else
    let varPath := Join [beadsDir, "var", c.Database]
    let rootPath := Join [beadsDir, c.Database]
    match Stat fs varPath with
    | .ok _ => varPath
    | .error _ =>
      match Stat fs rootPath with
      | .ok _ => rootPath
      | .error _ =>
        if c.useVarLayout env fs beadsDir then varPath else rootPath

def Config.JSONLPath (c : Config) (beadsDir : String) : String :=
  if c.JSONLExport = "" then Join [beadsDir, "issues.jsonl"]
  else Join [beadsDir, c.JSONLExport]

def DefaultDeletionsRetentionDays : Int := 3

def Config.GetDeletionsRetentionDays (c : Config) : Int :=
  if c.DeletionsRetentionDays ≤ 0 then DefaultDeletionsRetentionDays
  else c.DeletionsRetentionDays

def BackendSQLite : String := "sqlite"
def BackendDolt : String := "dolt"

def Config.GetBackend (c : Config) : String :=
  if c.Backend = "" then BackendSQLite else c.Backend

/-! ## encoding/json: encoder -/

/-- The lower-case hexadecimal digit of a number below sixteen. -/
def hexDigit (n : Nat) : Char :=
  if n < 10 then Char.ofNat (48 + n) else Char.ofNat (87 + n)

/-- The text the encoder writes for one character of a string (HTML escaping
on, as `Marshal` has it): the quote and the backslash get a backslash, the
control characters their short form or `\u00XX`, and `<`, `>`, `&`, U+2028 and
U+2029 their `\uXXXX` form. -/
def escapeChar (c : Char) : List Char :=
  if c = '"' then ['\\', '"']
  else if c = '\\' then ['\\', '\\']
  else if c = '\x08' then ['\\', 'b']
  else if c = '\x0c' then ['\\', 'f']
  else if c = '\n' then ['\\', 'n']
  else if c = '\r' then ['\\', 'r']
  else if c = '\t' then ['\\', 't']
  else if c.toNat < 32 ∨ c = '<' ∨ c = '>' ∨ c = '&' then
    ['\\', 'u', '0', '0', hexDigit (c.toNat / 16), hexDigit (c.toNat % 16)]
  else if c = '\u2028' then ['\\', 'u', '2', '0', '2', '8']
  else if c = '\u2029' then ['\\', 'u', '2', '0', '2', '9']
  else [c]

/-- The characters of a string, escaped, without the surrounding quotes. -/
def escapeChars : List Char → List Char
  | [] => []
  | c :: cs => escapeChar c ++ escapeChars cs

/-- A JSON string literal. -/
def encodeString (s : String) : List Char :=
  '"' :: (escapeChars s.data ++ ['"'])

/-- The decimal digits of a natural number, given enough fuel (one unit per
digit). -/
def natDigits : Nat → Nat → List Char
  | 0, _ => []
  | fuel + 1, n =>
    if n < 10 then [Char.ofNat (48 + n)]
    else natDigits fuel (n / 10) ++ [Char.ofNat (48 + n % 10)]

/-- A JSON number literal for an integer. -/
def encodeInt (n : Int) : List Char :=
  if n < 0 then '-' :: natDigits (n.natAbs + 1) n.natAbs
  else natDigits (n.natAbs + 1) n.natAbs

/-- The members the encoder writes for a Config, in the order of the struct:
`database` always, every other field only when it is not the zero value
(`omitempty`). Each member is its name and the text of its value. -/
def configMembers (c : Config) : List (String × List Char) :=
  [("database", encodeString c.Database)]
  ++ (if c.JSONLExport = "" then [] else [("jsonl_export", encodeString c.JSONLExport)])
  ++ (if c.Backend = "" then [] else [("backend", encodeString c.Backend)])
  ++ (if c.Layout = "" then [] else [("layout", encodeString c.Layout)])
  ++ (if c.DeletionsRetentionDays = 0 then []
      else [("deletions_retention_days", encodeInt c.DeletionsRetentionDays)])
  ++ (if c.LastBdVersion = "" then [] else [("last_bd_version", encodeString c.LastBdVersion)])

/-- One member of an indented object: the quoted name, a colon, a space and the
value. The names of this struct need no escaping. -/
def renderMember (m : String × List Char) : List Char :=
  '"' :: (m.1.data ++ '"' :: ':' :: ' ' :: m.2)

/-- The members of an indented object, each on a line of its own that starts
with `nl` (a newline, the line start and one indent), separated by commas. -/
def renderMembers (nl : List Char) : List (String × List Char) → List Char
  | [] => []
  | [m] => nl ++ renderMember m
  | m :: rest => nl ++ renderMember m ++ ',' :: renderMembers nl rest

/-- Go `json.MarshalIndent` at a Config: an object over several lines, every
line starting with `pre`, the members indented by `indent`. It has no error
case for this struct. -/
def MarshalIndent (c : Config) (pre indent : String) : Except Error String :=
  .ok (String.mk ('\x7b' :: (renderMembers ('\n' :: (pre.data ++ indent.data)) (configMembers c)
    ++ '\n' :: (pre.data ++ ['\x7d']))))

/-! ## encoding/json: decoder -/

/-- A parsed JSON value. A number keeps its literal. -/
inductive JSON
  | null
  | bool (b : Bool)
  | num (lit : List Char)
  | str (s : List Char)
  | arr (elems : List JSON)
  | obj (members : List (List Char × JSON))

/-- The nesting depth beyond which the decoder gives up. -/
def maxNestingDepth : Nat := 10000

def isWs (c : Char) : Bool :=
  c = ' ' ∨ c = '\t' ∨ c = '\r' ∨ c = '\n'

def skipWs : List Char → List Char
  | [] => []
  | c :: cs => if isWs c then skipWs cs else c :: cs

def hexVal (c : Char) : Option Nat :=
  if '0' ≤ c ∧ c ≤ '9' then some (c.toNat - 48)
  else if 'a' ≤ c ∧ c ≤ 'f' then some (c.toNat - 87)
  else if 'A' ≤ c ∧ c ≤ 'F' then some (c.toNat - 55)
  else none

/-- Four hexadecimal digits at the head of the input, as a number. -/
def getu4 : List Char → Option (Nat × List Char)
  | a :: b :: c :: d :: rest =>
    match hexVal a, hexVal b, hexVal c, hexVal d with
    | some x, some y, some z, some w => some (((x * 16 + y) * 16 + z) * 16 + w, rest)
    | _, _, _, _ => none
  | _ => none

/-- The Unicode replacement character. -/
def replacementChar : Char := Char.ofNat 0xFFFD

/-- The character of a `\uXXXX` escape, the input standing after the `u`. A
high surrogate followed by an escaped low surrogate is the character of the
pair; any other surrogate is the replacement character. -/
def unescapeU (input : List Char) : Option (Char × List Char) :=
  match getu4 input with
  | none => none
  | some (hi, rest) =>
    if 0xD800 ≤ hi ∧ hi < 0xE000 then
      match rest with
      | b :: u :: rest2 =>
        if b = '\\' ∧ u = 'u' then
          match getu4 rest2 with
          | some (lo, rest3) =>
            if hi < 0xDC00 ∧ 0xDC00 ≤ lo ∧ lo < 0xE000 then
              some (Char.ofNat (0x10000 + (hi - 0xD800) * 0x400 + (lo - 0xDC00)), rest3)
            else some (replacementChar, rest)
          | none => some (replacementChar, rest)
        else some (replacementChar, rest)
      | _ => some (replacementChar, rest)
    else some (Char.ofNat hi, rest)

/-- The character of an escape sequence, the input standing after the
backslash. -/
def unescape : List Char → Option (Char × List Char)
  | [] => none
  | e :: rest =>
    if e = '"' then some ('"', rest)
    else if e = '\\' then some ('\\', rest)
    else if e = '/' then some ('/', rest)
    else if e = 'b' then some ('\x08', rest)
    else if e = 'f' then some ('\x0c', rest)
    else if e = 'n' then some ('\n', rest)
    else if e = 'r' then some ('\r', rest)
    else if e = 't' then some ('\t', rest)
    else if e = 'u' then unescapeU rest
    else none

/-- A string literal, the input standing after the opening quote: the
characters of the string and the input after the closing quote. A raw control
character is a syntax error. -/
def parseString : Nat → List Char → Option (List Char × List Char)
  | 0, _ => none
  | _ + 1, [] => none
  | fuel + 1, c :: cs =>
    if c = '"' then some ([], cs)
    else if c = '\\' then
      match unescape cs with
      | none => none
      | some (ch, rest) => (parseString fuel rest).map (fun r => (ch :: r.1, r.2))
    else if c.toNat < 32 then none
    else (parseString fuel cs).map (fun r => (c :: r.1, r.2))

/-- The integer part of a number: a zero alone, or a digit from one to nine
followed by digits. -/
def scanInt : List Char → Option (List Char × List Char)
  | [] => none
  | d :: r =>
    if d = '0' then some (['0'], r)
    else if d.isDigit then some (d :: r.takeWhile Char.isDigit, r.dropWhile Char.isDigit)
    else none

/-- The optional fraction of a number. -/
def scanFrac : List Char → Option (List Char × List Char)
  | [] => some ([], [])
  | d :: r =>
    if d = '.' then
      if r.takeWhile Char.isDigit = [] then none
      else some (d :: r.takeWhile Char.isDigit, r.dropWhile Char.isDigit)
    else some ([], d :: r)

/-- The optional sign of an exponent. -/
def scanSign : List Char → List Char × List Char
  | [] => ([], [])
  | s :: r => if s = '+' ∨ s = '-' then ([s], r) else ([], s :: r)

/-- The optional exponent of a number. -/
def scanExp : List Char → Option (List Char × List Char)
  | [] => some ([], [])
  | e :: r =>
    if e = 'e' ∨ e = 'E' then
      if ((scanSign r).2).takeWhile Char.isDigit = [] then none
      else some (e :: ((scanSign r).1 ++ ((scanSign r).2).takeWhile Char.isDigit),
                 ((scanSign r).2).dropWhile Char.isDigit)
    else some ([], e :: r)

/-- A number literal at the head of the input: the literal and the input after
it. -/
def parseNumber (input : List Char) : Option (List Char × List Char) :=
  let sgn : List Char := if input.head? = some '-' then ['-'] else []
  let r0 := if input.head? = some '-' then input.tail else input
  match scanInt r0 with
  | none => none
  | some (i, r1) =>
    match scanFrac r1 with
    | none => none
    | some (f, r2) =>
      match scanExp r2 with
      | none => none
      | some (e, r3) => some (sgn ++ i ++ f ++ e, r3)

/-- The input after a keyword, when it starts with the keyword. -/
def stripLit (lit : List Char) (input : List Char) : Option (List Char) :=
  if lit.isPrefixOf input then some (input.drop lit.length) else none

/-- The members of an object, the input standing at the opening quote of a
name; `pv` parses a value. Returns the members and the input after the closing
brace. -/
def parseMembers (pv : List Char → Option (JSON × List Char)) (strFuel : Nat) :
    Nat → List Char → Option (List (List Char × JSON) × List Char)
  | 0, _ => none
  | _ + 1, [] => none
  | fuel + 1, q :: r0 =>
    if q = '"' then
      match parseString strFuel r0 with
      | none => none
      | some (key, r1) =>
        match skipWs r1 with
        | [] => none
        | col :: r2 =>
          if col = ':' then
            match pv (skipWs r2) with
            | none => none
            | some (v, r3) =>
              match skipWs r3 with
              | [] => none
              | sep :: r4 =>
                if sep = '\x7d' then some ([(key, v)], r4)
                else if sep = ',' then
                  (parseMembers pv strFuel fuel (skipWs r4)).map
                    (fun p => ((key, v) :: p.1, p.2))
                else none
          else none
    else none

/-- The elements of an array, the input standing at the first element; `pv`
parses a value. Returns the elements and the input after the closing bracket. -/
def parseElems (pv : List Char → Option (JSON × List Char)) :
    Nat → List Char → Option (List JSON × List Char)
  | 0, _ => none
  | fuel + 1, input =>
    match pv input with
    | none => none
    | some (v, r1) =>
      match skipWs r1 with
      | [] => none
      | sep :: r2 =>
        if sep = ']' then some ([v], r2)
        else if sep = ',' then
          (parseElems pv fuel (skipWs r2)).map (fun p => (v :: p.1, p.2))
        else none

/-- A JSON value at the head of the input (no leading white space), inside
`depth` enclosing arrays and objects. -/
def parseValue : Nat → Nat → List Char → Option (JSON × List Char)
  | 0, _, _ => none
  | _ + 1, _, [] => none
  | fuel + 1, depth, c :: rest =>
    if c = '\x7b' then
      if maxNestingDepth ≤ depth then none
      else
        match skipWs rest with
        | [] => none
        | c2 :: r2 =>
          if c2 = '\x7d' then some (.obj [], r2)
          else
            (parseMembers (parseValue fuel (depth + 1)) fuel fuel (c2 :: r2)).map
              (fun p => (.obj p.1, p.2))
    else if c = '[' then
      if maxNestingDepth ≤ depth then none
      else
        match skipWs rest with
        | [] => none
        | c2 :: r2 =>
          if c2 = ']' then some (.arr [], r2)
          else
            (parseElems (parseValue fuel (depth + 1)) fuel (c2 :: r2)).map
              (fun p => (.arr p.1, p.2))
    else if c = '"' then (parseString fuel rest).map (fun p => (.str p.1, p.2))
    else if c = '-' ∨ c.isDigit then (parseNumber (c :: rest)).map (fun p => (.num p.1, p.2))
    else if c = 't' then (stripLit ['t', 'r', 'u', 'e'] (c :: rest)).map (fun r => (.bool true, r))
    else if c = 'f' then
      (stripLit ['f', 'a', 'l', 's', 'e'] (c :: rest)).map (fun r => (.bool false, r))
    else if c = 'n' then (stripLit ['n', 'u', 'l', 'l'] (c :: rest)).map (fun r => (.null, r))
    else none

/-- A whole JSON text: one value with white space around it and nothing
else. Every step of the parser consumes input, so a fuel of the length of the
text plus one is never used up. -/
def parseJSON (text : List Char) : Option JSON :=
  match parseValue (text.length + 1) 0 (skipWs text) with
  | none => none
  | some (v, rest) => if skipWs rest = [] then some v else none

/-- The smallest character of the case-fold class of a character, as far as the
names of this struct are concerned: a lower-case ASCII letter folds to its upper
case, and so do the long s (U+017F) and the Kelvin sign (U+212A); every other
character outside ASCII folds to a character outside ASCII and stands for
itself here. -/
def foldRune (c : Char) : Char :=
  if 'a' ≤ c ∧ c ≤ 'z' then Char.ofNat (c.toNat - 32)
  else if c = Char.ofNat 0x17F then 'S'
  else if c = Char.ofNat 0x212A then 'K'
  else c

/-- Whether a member name selects the field of the given name: the exact name,
or a name equal to it under case folding. -/
def keyMatches (key : List Char) (name : String) : Bool :=
  key = name.data ∨ key.map foldRune = name.data.map foldRune

/-- The value of a sequence of decimal digits. -/
def natOfDigits (ds : List Char) : Nat :=
  ds.foldl (fun acc d => acc * 10 + (d.toNat - 48)) 0

/-- Go `strconv.ParseInt(lit, 10, 64)` on a JSON number literal: an optional
minus and digits only, the value within 64 bits. -/
def intOfLit (lit : List Char) : Option Int :=
  let ds := if lit.head? = some '-' then lit.tail else lit
  let n : Int := if lit.head? = some '-' then -(natOfDigits ds : Int) else (natOfDigits ds : Int)
  if ds ≠ [] ∧ ds.all Char.isDigit ∧ -(2 : Int) ^ 63 ≤ n ∧ n < (2 : Int) ^ 63 then some n
  else none

/-- A JSON value decoded into a string field holding `cur`: a string sets the
field, null leaves it, anything else is a type error. -/
def decodeString (field : String) (cur : String) : JSON → String × Option JSONError
  | .str s => (String.mk s, none)
  | .null => (cur, none)
  | _ => (cur, some (.typeMismatch field))

/-- A JSON value decoded into an int field holding `cur`. -/
def decodeInt (field : String) (cur : Int) : JSON → Int × Option JSONError
  | .num lit =>
    match intOfLit lit with
    | some n => (n, none)
    | none => (cur, some (.typeMismatch field))
  | .null => (cur, none)
  | _ => (cur, some (.typeMismatch field))

/-- The first of two errors. -/
def firstError (e1 e2 : Option JSONError) : Option JSONError :=
  match e1 with
  | some e => some e
  | none => e2

/-- One member of the object decoded into the Config: the field the name
selects is set from the value, a name that selects no field is ignored. A type
error is recorded and decoding goes on; the first one is the one reported. -/
def decodeMember (st : Config × Option JSONError) (m : List Char × JSON) :
    Config × Option JSONError :=
  let c := st.1
  if keyMatches m.1 "database" then
    let r := decodeString "database" c.Database m.2
    ({ c with Database := r.1 }, firstError st.2 r.2)
  else if keyMatches m.1 "jsonl_export" then
    let r := decodeString "jsonl_export" c.JSONLExport m.2
    ({ c with JSONLExport := r.1 }, firstError st.2 r.2)
  else if keyMatches m.1 "backend" then
    let r := decodeString "backend" c.Backend m.2
    ({ c with Backend := r.1 }, firstError st.2 r.2)
  else if keyMatches m.1 "layout" then
    let r := decodeString "layout" c.Layout m.2
    ({ c with Layout := r.1 }, firstError st.2 r.2)
  else if keyMatches m.1 "deletions_retention_days" then
    let r := decodeInt "deletions_retention_days" c.DeletionsRetentionDays m.2
    ({ c with DeletionsRetentionDays := r.1 }, firstError st.2 r.2)
  else if keyMatches m.1 "last_bd_version" then
    let r := decodeString "last_bd_version" c.LastBdVersion m.2
    ({ c with LastBdVersion := r.1 }, firstError st.2 r.2)
  else st

/-- The zero value of Config, which `var cfg Config` declares. -/
def zeroConfig : Config :=
  { Database := "", JSONLExport := "", Backend := "", Layout := "",
    DeletionsRetentionDays := 0, LastBdVersion := "" }

/-- Go `json.Unmarshal(data, &cfg)` for a freshly declared `cfg`: a syntax
error anywhere in the text is reported before anything is decoded; null leaves
the zero value; an object is decoded member by member; any other value is a
type error. -/
def Unmarshal (data : String) : Except JSONError Config :=
  match parseJSON data.data with
  | none => .error .malformed
  | some .null => .ok zeroConfig
  | some (.obj members) =>
    match members.foldl decodeMember (zeroConfig, none) with
    | (cfg, none) => .ok cfg
    | (_, some e) => .error e
  | some _ => .error (.typeMismatch "")

/-! ## os: reading, writing and removing files -/

/-- The file system with the entry at one path replaced. -/
def FS.set (fs : FS) (name : String) (n : Option Node) : FS :=
  { fs with node := fun p => if p = name then n else fs.node p }

/-- The process may open a file of the given mode for the access whose owner
bit is `bit` (0400 to read, 0200 to write). -/
def FS.mayOpen (fs : FS) (mode bit : Nat) : Bool :=
  fs.privileged || decide (mode &&& bit ≠ 0)

/-- Go `os.ReadFile`: refused by the system, or the entry absent, or a
directory, or a file the process may not read, or the content of the file. -/
def ReadFile (fs : FS) (name : String) : Except Error String :=
  match fs.readErr name with
  | some r => .error (.pathError "open" name r.toErrno)
  | none =>
    match fs.node name with
    | none => .error (.pathError "open" name .ENOENT)
    | some (.dir _) => .error (.pathError "read" name .EISDIR)
    | some (.file data mode) =>
      if fs.mayOpen mode 0o400 then .ok data
      else .error (.pathError "open" name .EACCES)

/-- Go `os.WriteFile`: the file is created with the permission bits `perm`
less those of the umask when nothing exists at the path; an existing file is
truncated and rewritten and keeps its permission bits, provided the process may
write it. A failure is one that the open reports; it leaves the state as it
was. -/
def WriteFile (fs : FS) (name : String) (data : String) (perm : Nat) : Option Error × FS :=
  match fs.writeErr name with
  | some e => (some (.pathError "open" name e), fs)
  | none =>
    match fs.node name with
    | some (.dir _) => (some (.pathError "open" name .EISDIR), fs)
    | some (.file _ mode) =>
      if fs.mayOpen mode 0o200 then (none, fs.set name (some (.file data mode)))
      else (some (.pathError "open" name .EACCES), fs)
    | none => (none, fs.set name (some (.file data (perm ^^^ (perm &&& fs.umask)))))

/-- Go `os.Remove`. A directory is taken to be empty; one that is not is
refused by the system through `removeErr`. -/
def Remove (fs : FS) (name : String) : Option Error × FS :=
  match fs.removeErr name with
  | some e => (some (.pathError "remove" name e), fs)
  | none =>
    match fs.node name with
    | none => (some (.pathError "remove" name .ENOENT), fs)
    | some _ => (none, fs.set name none)

/-! ## Load and Save -/

/-- Go `Save`: the configuration written to `metadata.json` as indented JSON
with permission 0600. Returns the error (none: success) and the file system
afterwards. -/
def Config.Save (c : Config) (fs : FS) (beadsDir : String) : Option Error × FS :=
  let configPath := ConfigPath beadsDir
  match MarshalIndent c "" "  " with
  | .error err => (some (.wrapped "marshaling config" err), fs)
  | .ok data =>
    match WriteFile fs configPath data 0o600 with
    | (some err, fs1) => (some (.wrapped "writing config" err), fs1)
    | (none, fs1) => (none, fs1)

/-- Go `Load`: the two results of the Go function, and the file system
afterwards. -/
def Load (fs : FS) (beadsDir : String) : (Option Config × Option Error) × FS :=
  let configPath := ConfigPath beadsDir
  match ReadFile fs configPath with
  | .error err =>
    if IsNotExist err then
      let legacyPath := Join [beadsDir, "config.json"]
      match ReadFile fs legacyPath with
      | .error err2 =>
        if IsNotExist err2 then ((none, none), fs)
        else ((none, some (.wrapped "reading legacy config" err2)), fs)
      | .ok data =>
        match Unmarshal data with
        | .error e => ((none, some (.wrapped "parsing legacy config" (.json e))), fs)
        | .ok cfg =>
          match cfg.Save fs beadsDir with
          | (some err3, fs1) =>
            ((none, some (.wrapped "migrating config to metadata.json" err3)), fs1)
          | (none, fs1) => ((some cfg, none), (Remove fs1 legacyPath).2)
    else ((none, some (.wrapped "reading config" err)), fs)
  | .ok data =>
    match Unmarshal data with
    | .error e => ((none, some (.wrapped "parsing config" (.json e))), fs)
    | .ok cfg => ((some cfg, none), fs)


/-! ## Go strings in general: bytes and UTF-8 -/

/-- A Go string: a sequence of bytes, valid UTF-8 or not. -/
abbrev GoString := List UInt8

/-- The UTF-8 encoding of a character (Go `utf8.EncodeRune`). -/
def encodeRune (c : Char) : List UInt8 :=
  let v := c.toNat
  if v < 0x80 then [UInt8.ofNat v]
  else if v < 0x800 then [UInt8.ofNat (0xC0 + v / 64), UInt8.ofNat (0x80 + v % 64)]
  else if v < 0x10000 then
    [UInt8.ofNat (0xE0 + v / 4096), UInt8.ofNat (0x80 + v / 64 % 64), UInt8.ofNat (0x80 + v % 64)]
  else
    [UInt8.ofNat (0xF0 + v / 262144), UInt8.ofNat (0x80 + v / 4096 % 64),
      UInt8.ofNat (0x80 + v / 64 % 64), UInt8.ofNat (0x80 + v % 64)]

/-- The UTF-8 encoding of a text. -/
def encodeUTF8 : List Char → List UInt8
  | [] => []
  | c :: cs => encodeRune c ++ encodeUTF8 cs

/-- The number of bytes of the encoding that starts with the byte `b0` and the
bounds of its second byte, when `b0` can start an encoding of more than one
byte (the table of Go `utf8.DecodeRune`: no overlong form, no surrogate,
nothing above U+10FFFF). -/
def leadByte (b0 : Nat) : Option (Nat × Nat × Nat) :=
  if 0xC2 ≤ b0 ∧ b0 ≤ 0xDF then some (2, 0x80, 0xBF)
  else if b0 = 0xE0 then some (3, 0xA0, 0xBF)
  else if b0 = 0xED then some (3, 0x80, 0x9F)
  else if 0xE1 ≤ b0 ∧ b0 ≤ 0xEF then some (3, 0x80, 0xBF)
  else if b0 = 0xF0 then some (4, 0x90, 0xBF)
  else if 0xF1 ≤ b0 ∧ b0 ≤ 0xF3 then some (4, 0x80, 0xBF)
  else if b0 = 0xF4 then some (4, 0x80, 0x8F)
  else none

/-- A continuation byte. -/
def isCont (b : Nat) : Bool := 0x80 ≤ b ∧ b ≤ 0xBF

/-- Go `utf8.DecodeRune` at the head of a non-empty byte sequence `b0 :: rest`:
the character and the number of bytes it takes; for a byte that starts no valid
encoding, no character and the width one (Go: `RuneError` with size 1). -/
def decodeRune (b0 : UInt8) (rest : List UInt8) : Option Char × Nat :=
  if b0.toNat < 0x80 then (some (Char.ofNat b0.toNat), 1)
  else
    match leadByte b0.toNat, rest with
    | some (2, lo, hi), b1 :: _ =>
      if lo ≤ b1.toNat ∧ b1.toNat ≤ hi then
        (some (Char.ofNat ((b0.toNat - 0xC0) * 64 + (b1.toNat - 0x80))), 2)
      else (none, 1)
    | some (3, lo, hi), b1 :: b2 :: _ =>
      if lo ≤ b1.toNat ∧ b1.toNat ≤ hi ∧ isCont b2.toNat then
        (some (Char.ofNat
          ((b0.toNat - 0xE0) * 4096 + (b1.toNat - 0x80) * 64 + (b2.toNat - 0x80))), 3)
      else (none, 1)
    | some (4, lo, hi), b1 :: b2 :: b3 :: _ =>
      if lo ≤ b1.toNat ∧ b1.toNat ≤ hi ∧ isCont b2.toNat ∧ isCont b3.toNat then
        (some (Char.ofNat ((b0.toNat - 0xF0) * 262144 + (b1.toNat - 0x80) * 4096
          + (b2.toNat - 0x80) * 64 + (b3.toNat - 0x80))), 4)
      else (none, 1)
    | _, _ => (none, 1)

/-- The byte sequence read rune by rune, as the encoder of encoding/json walks a
Go string: a character for every valid encoding, and none for every byte that
belongs to no valid encoding. One unit of fuel per byte. -/
def decodeRunes : Nat → List UInt8 → List (Option Char)
  | 0, _ => []
  | _ + 1, [] => []
  | fuel + 1, b0 :: rest =>
    (decodeRune b0 rest).1 :: decodeRunes fuel (rest.drop ((decodeRune b0 rest).2 - 1))

/-- The runes of a Go string. -/
def GoString.runes (g : GoString) : List (Option Char) := decodeRunes g.length g

/-- The Go string of a text. -/
def GoString.ofString (s : String) : GoString := encodeUTF8 s.data

/-- The text of a Go string with every byte that is not valid UTF-8 replaced by
U+FFFD: what a decoder of JSON gives back for the string the encoder wrote. -/
def GoString.toValidUTF8 (g : GoString) : String :=
  String.mk (g.runes.map (fun r => r.getD replacementChar))

/-- The Go string is valid UTF-8: it is the encoding of a text, which is then
the text read from it. (A byte outside every valid encoding is read as U+FFFD,
which encodes to three bytes, so an invalid string never comes back.) -/
def GoString.ValidUTF8 (g : GoString) : Prop :=
  GoString.ofString (GoString.toValidUTF8 g) = g

instance (g : GoString) : Decidable (GoString.ValidUTF8 g) := by
  unfold GoString.ValidUTF8; infer_instance

/-- The configuration record as a Go caller may build it: its strings are
arbitrary Go strings. -/
structure RawConfig where
  Database : GoString
  JSONLExport : GoString
  Backend : GoString
  Layout : GoString
  DeletionsRetentionDays : Int
  LastBdVersion : GoString
  deriving DecidableEq, Repr

/-- A Config, its strings seen as Go strings. -/
def Config.toRaw (c : Config) : RawConfig :=
  { Database := GoString.ofString c.Database
    JSONLExport := GoString.ofString c.JSONLExport
    Backend := GoString.ofString c.Backend
    Layout := GoString.ofString c.Layout
    DeletionsRetentionDays := c.DeletionsRetentionDays
    LastBdVersion := GoString.ofString c.LastBdVersion }

/-- The configuration with the invalid bytes of every string replaced by
U+FFFD. -/
def RawConfig.toValid (c : RawConfig) : Config :=
  { Database := GoString.toValidUTF8 c.Database
    JSONLExport := GoString.toValidUTF8 c.JSONLExport
    Backend := GoString.toValidUTF8 c.Backend
    Layout := GoString.toValidUTF8 c.Layout
    DeletionsRetentionDays := c.DeletionsRetentionDays
    LastBdVersion := GoString.toValidUTF8 c.LastBdVersion }

/-- Every string of the configuration is valid UTF-8. -/
def RawConfig.ValidUTF8 (c : RawConfig) : Prop :=
  GoString.ValidUTF8 c.Database ∧ GoString.ValidUTF8 c.JSONLExport ∧
  GoString.ValidUTF8 c.Backend ∧ GoString.ValidUTF8 c.Layout ∧
  GoString.ValidUTF8 c.LastBdVersion

instance (c : RawConfig) : Decidable c.ValidUTF8 := by
  unfold RawConfig.ValidUTF8; infer_instance

/-- The value of the int field fits 64 bits, as every Go `int` does. -/
def RawConfig.InRange (c : RawConfig) : Prop :=
  -(2 : Int) ^ 63 ≤ c.DeletionsRetentionDays ∧ c.DeletionsRetentionDays < (2 : Int) ^ 63

/-- The text the encoder writes for one rune of a Go string: a character as
`escapeChar` has it, a byte that is not valid UTF-8 as the escape of U+FFFD. -/
def escapeRune : Option Char → List Char
  | some c => escapeChar c
  | none => ['\\', 'u', 'f', 'f', 'f', 'd']

/-- The runes of a string, escaped, without the surrounding quotes. -/
def escapeRunes : List (Option Char) → List Char
  | [] => []
  | r :: rs => escapeRune r ++ escapeRunes rs

/-- A JSON string literal for a Go string. -/
def encodeGoString (g : GoString) : List Char :=
  '"' :: (escapeRunes g.runes ++ ['"'])

/-- The members the encoder writes for a configuration with arbitrary strings:
`configMembers` over Go strings, a string being omitted when it has no byte. -/
def rawMembers (c : RawConfig) : List (String × List Char) :=
  [("database", encodeGoString c.Database)]
  ++ (if c.JSONLExport = [] then [] else [("jsonl_export", encodeGoString c.JSONLExport)])
  ++ (if c.Backend = [] then [] else [("backend", encodeGoString c.Backend)])
  ++ (if c.Layout = [] then [] else [("layout", encodeGoString c.Layout)])
  ++ (if c.DeletionsRetentionDays = 0 then []
      else [("deletions_retention_days", encodeInt c.DeletionsRetentionDays)])
  ++ (if c.LastBdVersion = [] then []
      else [("last_bd_version", encodeGoString c.LastBdVersion)])

/-- Go `json.MarshalIndent` at a configuration with arbitrary strings. -/
def MarshalIndentRaw (c : RawConfig) (pre indent : String) : Except Error String :=
  .ok (String.mk ('\x7b' :: (renderMembers ('\n' :: (pre.data ++ indent.data)) (rawMembers c)
    ++ '\n' :: (pre.data ++ ['\x7d']))))

/-- Go `Save` at a configuration with arbitrary strings. `Config.Save` is this
function at a configuration whose strings are valid UTF-8 (`rawSave_eq`). -/
def RawConfig.Save (c : RawConfig) (fs : FS) (beadsDir : String) : Option Error × FS :=
  let configPath := ConfigPath beadsDir
  match MarshalIndentRaw c "" "  " with
  | .error err => (some (.wrapped "marshaling config" err), fs)
  | .ok data =>
    match WriteFile fs configPath data 0o600 with
    | (some err, fs1) => (some (.wrapped "writing config" err), fs1)
    | (none, fs1) => (none, fs1)

/-! ## Vocabulary of the proofs -/

/-- The cases of the escaping of one character. -/
inductive EscapeCase (c : Char) : Prop
  | quote (h : c = '"') (e : escapeChar c = ['\\', '"'])
  | backslash (h : c = '\\') (e : escapeChar c = ['\\', '\\'])
  | bs (h : c = '\x08') (e : escapeChar c = ['\\', 'b'])
  | ff (h : c = '\x0c') (e : escapeChar c = ['\\', 'f'])
  | nl (h : c = '\n') (e : escapeChar c = ['\\', 'n'])
  | cr (h : c = '\r') (e : escapeChar c = ['\\', 'r'])
  | tab (h : c = '\t') (e : escapeChar c = ['\\', 't'])
  | hex (h : c.toNat < 256)
      (e : escapeChar c = ['\\', 'u', '0', '0', hexDigit (c.toNat / 16), hexDigit (c.toNat % 16)])
  | ls (h : c = '\u2028') (e : escapeChar c = ['\\', 'u', '2', '0', '2', '8'])
  | ps (h : c = '\u2029') (e : escapeChar c = ['\\', 'u', '2', '0', '2', '9'])
  | plain (h1 : c ≠ '"') (h2 : c ≠ '\\') (h3 : ¬ c.toNat < 32) (e : escapeChar c = [c])

/-- The input after a value inside the indented object starts with a comma or
a newline. -/
def ValueEnd (t : List Char) : Prop :=
  ∃ c r, t = c :: r ∧ (c = ',' ∨ c = '\n')

/-- The members the encoder writes for a Config, each with the JSON value its
text stands for. -/
def configValues (c : Config) : List (String × List Char × JSON) :=
  [("database", encodeString c.Database, JSON.str c.Database.data)]
  ++ (if c.JSONLExport = "" then []
      else [("jsonl_export", encodeString c.JSONLExport, JSON.str c.JSONLExport.data)])
  ++ (if c.Backend = "" then [] else [("backend", encodeString c.Backend, JSON.str c.Backend.data)])
  ++ (if c.Layout = "" then [] else [("layout", encodeString c.Layout, JSON.str c.Layout.data)])
  ++ (if c.DeletionsRetentionDays = 0 then []
      else [("deletions_retention_days", encodeInt c.DeletionsRetentionDays,
             JSON.num (encodeInt c.DeletionsRetentionDays))])
  ++ (if c.LastBdVersion = "" then []
      else [("last_bd_version", encodeString c.LastBdVersion, JSON.str c.LastBdVersion.data)])

/-- With fuel `f`, the decoder reads the name of the member back as it is and
the text of its value as the JSON value `v`. -/
def MemberParsesTo (f : Nat) (m : String × List Char) (v : JSON) : Prop :=
  (∀ r, parseString f (m.1.data ++ '"' :: r) = some (m.1.data, r)) ∧
  (∀ t, skipWs (m.2 ++ t) = m.2 ++ t) ∧
  (∀ t, ValueEnd t → parseValue f 1 (m.2 ++ t) = some (v, t))

/-- The line start of a member: a newline and one indent of two spaces. -/
def memberLine : List Char := ['\n', ' ', ' ']

/-- The text `MarshalIndent` writes for a Config with an empty line start and
an indent of two spaces. -/
def configText (c : Config) : List Char :=
  '\x7b' :: (renderMembers memberLine (configMembers c) ++ ['\n', '\x7d'])

/-- A path element that `Clean` keeps as it is: not empty, without separator,
and neither `.` nor `..`. -/
def PlainName (name : List Char) : Prop :=
  name ≠ [] ∧ '/' ∉ name ∧ name ≠ ['.'] ∧ name ≠ ['.', '.']

/-- The text `Join` puts before a plain last element of a path in the directory
`d`: the cleaned directory and a separator, or nothing. -/
def dirLead (d : String) : List Char :=
  if d.data = [] then []
  else
    (if d.data.head? = some '/' then ['/'] else []) ++
      (match (splitSlash d.data).foldl (cleanStep (d.data.head? = some '/')) [] with
        | [] => []
        | top :: below => renderRev (top :: below) ++ ['/'])

/-- The value of an int field fits 64 bits. -/
def Config.InRange (c : Config) : Prop :=
  -(2 : Int) ^ 63 ≤ c.DeletionsRetentionDays ∧ c.DeletionsRetentionDays < (2 : Int) ^ 63

/-! ## Concrete environments and file systems -/

/-- An environment with the legacy-layout override set to the given value. -/
def envLegacy (v : String) : Env :=
  fun k => if k = "BD_LEGACY_LAYOUT" then some v else none

/-- The empty environment. -/
def envEmpty : Env := fun _ => none

/-- A file system holding exactly the listed entries, seen by an unprivileged
process with umask 022, no operation refused. -/
def fsOf (entries : List (String × Node)) : FS :=
  { node := fun p => (entries.find? (fun e => decide (e.1 = p))).map (fun e => e.2)
    umask := 0o022
    privileged := false
    statErr := fun _ => none
    readErr := fun _ => none
    writeErr := fun _ => none
    removeErr := fun _ => none }

/-- The same file system after the directory has lost its permission bits
(`chmod 000`), so that the process may not search it: every path below it is
refused, whatever the operation. -/
def FS.sealed (fs : FS) (dir : String) : FS :=
  { fs with
    node := fun p =>
      if p = dir then
        match fs.node p with
        | some (.dir _) => some (.dir 0)
        | n => n
      else fs.node p
    statErr := fun p => if (dir.data ++ ['/']).isPrefixOf p.data then some .EACCES
      else fs.statErr p
    readErr := fun p => if (dir.data ++ ['/']).isPrefixOf p.data then some .EACCES
      else fs.readErr p
    writeErr := fun p => if (dir.data ++ ['/']).isPrefixOf p.data then some .EACCES
      else fs.writeErr p
    removeErr := fun p => if (dir.data ++ ['/']).isPrefixOf p.data then some .EACCES
      else fs.removeErr p }

/-- The same file system seen by a process with another umask. -/
def FS.withUmask (fs : FS) (umask : Nat) : FS :=
  { fs with umask := umask }

/-- A directory with a var/ subdirectory and the database file in both
places. -/
def fsBoth : FS :=
  fsOf [("/r", .dir 0o755), ("/r/var", .dir 0o755), ("/r/var/beads.db", .file "" 0o644),
        ("/r/beads.db", .file "" 0o644)]

/-- The default configuration with a database name that is not valid UTF-8:
the single byte 0xFF. -/
def rawInvalid : RawConfig :=
  { DefaultConfig.toRaw with Database := [0xFF] }

/-- The same file system mounted read-only: every open for writing and every
unlink is refused. -/
def FS.readOnly (fs : FS) : FS :=
  { fs with writeErr := fun _ => some .EROFS, removeErr := fun _ => some .EROFS }

/-- The same file system with one entry that cannot be unlinked. -/
def FS.pinned (fs : FS) (p : String) : FS :=
  { fs with removeErr := fun q => if q = p then some .EPERM else fs.removeErr q }

/-- A legacy configuration text. -/
def legacyText : String := "\x7b\"database\": \"old.db\", \"layout\": \"v2\"\x7d"

/-- The configuration the legacy text decodes to. -/
def legacyConfig : Config :=
  { zeroConfig with Database := "old.db", Layout := "v2" }

/-- A directory that holds only a legacy `config.json`. -/
def fsLegacy : FS :=
  fsOf [("/r", .dir 0o755), ("/r/config.json", .file legacyText 0o644)]

/-! # Theorems -/

/-! ## Lemmas -/

theorem toNat_ofNat_lt (n : Nat) (h : n < 256) : (UInt8.ofNat n).toNat = n := by
  show (n % 256) = n
  exact Nat.mod_eq_of_lt h

theorem char_valid (c : Char) :
    c.toNat < 0xD800 ∨ (0xDFFF < c.toNat ∧ c.toNat < 0x110000) := by
  have := c.valid
  simpa [UInt32.isValidChar, Nat.isValidChar, Char.toNat] using this

theorem leadByte_cases (b : Nat) :
    ((0xC2 ≤ b ∧ b ≤ 0xDF) → leadByte b = some (2, 0x80, 0xBF)) ∧
    (b = 0xE0 → leadByte b = some (3, 0xA0, 0xBF)) ∧
    (b = 0xED → leadByte b = some (3, 0x80, 0x9F)) ∧
    ((0xE1 ≤ b ∧ b ≤ 0xEF ∧ b ≠ 0xED) → leadByte b = some (3, 0x80, 0xBF)) ∧
    (b = 0xF0 → leadByte b = some (4, 0x90, 0xBF)) ∧
    ((0xF1 ≤ b ∧ b ≤ 0xF3) → leadByte b = some (4, 0x80, 0xBF)) ∧
    (b = 0xF4 → leadByte b = some (4, 0x80, 0x8F)) := by
  refine ⟨?_, ?_, ?_, ?_, ?_, ?_, ?_⟩
  · intro h
    simp [leadByte, h]
  · intro h
    subst h
    decide
  · intro h
    subst h
    decide
  · intro h
    have h1 : ¬ (0xC2 ≤ b ∧ b ≤ 0xDF) := by omega
    have h2 : ¬ b = 0xE0 := by omega
    have h3 : ¬ b = 0xED := by omega
    have h4 : 0xE1 ≤ b ∧ b ≤ 0xEF := ⟨h.1, h.2.1⟩
    simp only [leadByte, h1, h2, h3, h4, if_false, if_true, and_self]
  · intro h
    subst h
    decide
  · intro h
    have h1 : ¬ (0xC2 ≤ b ∧ b ≤ 0xDF) := by omega
    have h2 : ¬ b = 0xE0 := by omega
    have h3 : ¬ b = 0xED := by omega
    have h4 : ¬ (0xE1 ≤ b ∧ b ≤ 0xEF) := by omega
    have h5 : ¬ b = 0xF0 := by omega
    simp only [leadByte, h1, h2, h3, h4, h5, h, if_false, if_true, and_self]
  · intro h
    subst h
    decide

/-- Decoding reads back an encoded character, whatever follows it. -/
theorem decodeRune_encodeRune (c : Char) (rest : List UInt8) :
    ∃ b0 tl, encodeRune c = b0 :: tl ∧
      decodeRune b0 (tl ++ rest) = (some c, tl.length + 1) := by
  obtain ⟨l2, l3a, l3b, l3c, l4a, l4b, l4c⟩ := leadByte_cases
    (if c.toNat < 0x800 then 0xC0 + c.toNat / 64
      else if c.toNat < 0x10000 then 0xE0 + c.toNat / 4096 else 0xF0 + c.toNat / 262144)
  have hv := char_valid c
  by_cases h1 : c.toNat < 0x80
  · refine ⟨UInt8.ofNat c.toNat, [], by simp [encodeRune, h1], ?_⟩
    have e := toNat_ofNat_lt c.toNat (by omega)
    simp only [decodeRune, e, h1, if_true, Char.ofNat_toNat, List.length_nil]
  by_cases h2 : c.toNat < 0x800
  · refine ⟨UInt8.ofNat (0xC0 + c.toNat / 64), [UInt8.ofNat (0x80 + c.toNat % 64)],
      by simp [encodeRune, h1, h2], ?_⟩
    have e0 := toNat_ofNat_lt (0xC0 + c.toNat / 64) (by omega)
    have e1 := toNat_ofNat_lt (0x80 + c.toNat % 64) (by omega)
    have hl := l2 (by simp only [h2, if_true]; omega)
    simp only [h2, if_true] at hl
    have hb : ¬ (0xC0 + c.toNat / 64 < 0x80) := by omega
    have hr : 0x80 ≤ 0x80 + c.toNat % 64 ∧ 0x80 + c.toNat % 64 ≤ 0xBF := by omega
    have hval : (0xC0 + c.toNat / 64 - 0xC0) * 64 + (0x80 + c.toNat % 64 - 0x80) = c.toNat := by
      omega
    simp only [decodeRune, e0, e1, hb, if_false, hl, List.cons_append, List.nil_append, hr,
      and_self, if_true, hval, Char.ofNat_toNat, List.length_cons, List.length_nil]
  by_cases h3 : c.toNat < 0x10000
  · refine ⟨UInt8.ofNat (0xE0 + c.toNat / 4096),
      [UInt8.ofNat (0x80 + c.toNat / 64 % 64), UInt8.ofNat (0x80 + c.toNat % 64)],
      by simp [encodeRune, h1, h2, h3], ?_⟩
    have e0 := toNat_ofNat_lt (0xE0 + c.toNat / 4096) (by omega)
    have e1 := toNat_ofNat_lt (0x80 + c.toNat / 64 % 64) (by omega)
    have e2 := toNat_ofNat_lt (0x80 + c.toNat % 64) (by omega)
    have hb : ¬ (0xE0 + c.toNat / 4096 < 0x80) := by omega
    have hc2 : isCont (0x80 + c.toNat % 64) = true := by
      simp only [isCont, decide_eq_true_eq]; omega
    have hval : (0xE0 + c.toNat / 4096 - 0xE0) * 4096 + (0x80 + c.toNat / 64 % 64 - 0x80) * 64
        + (0x80 + c.toNat % 64 - 0x80) = c.toNat := by omega
    simp only [h2, h3, if_false, if_true] at l3a l3b l3c
    by_cases ha : 0xE0 + c.toNat / 4096 = 0xE0
    · have hl := l3a ha
      have hr : 0xA0 ≤ 0x80 + c.toNat / 64 % 64 ∧ 0x80 + c.toNat / 64 % 64 ≤ 0xBF := by omega
      simp only [decodeRune, e0, e1, e2, hb, if_false, hl, List.cons_append, List.nil_append, hr,
        hc2, and_self, if_true, hval, Char.ofNat_toNat, List.length_cons, List.length_nil]
    by_cases hd : 0xE0 + c.toNat / 4096 = 0xED
    · have hl := l3b hd
      have hr : 0x80 ≤ 0x80 + c.toNat / 64 % 64 ∧ 0x80 + c.toNat / 64 % 64 ≤ 0x9F := by omega
      simp only [decodeRune, e0, e1, e2, hb, if_false, hl, List.cons_append, List.nil_append, hr,
        hc2, and_self, if_true, hval, Char.ofNat_toNat, List.length_cons, List.length_nil]
    · have hl := l3c (by omega)
      have hr : 0x80 ≤ 0x80 + c.toNat / 64 % 64 ∧ 0x80 + c.toNat / 64 % 64 ≤ 0xBF := by omega
      simp only [decodeRune, e0, e1, e2, hb, if_false, hl, List.cons_append, List.nil_append, hr,
        hc2, and_self, if_true, hval, Char.ofNat_toNat, List.length_cons, List.length_nil]
  · refine ⟨UInt8.ofNat (0xF0 + c.toNat / 262144),
      [UInt8.ofNat (0x80 + c.toNat / 4096 % 64), UInt8.ofNat (0x80 + c.toNat / 64 % 64),
        UInt8.ofNat (0x80 + c.toNat % 64)],
      by simp [encodeRune, h1, h2, h3], ?_⟩
    have e0 := toNat_ofNat_lt (0xF0 + c.toNat / 262144) (by omega)
    have e1 := toNat_ofNat_lt (0x80 + c.toNat / 4096 % 64) (by omega)
    have e2 := toNat_ofNat_lt (0x80 + c.toNat / 64 % 64) (by omega)
    have e3 := toNat_ofNat_lt (0x80 + c.toNat % 64) (by omega)
    have hb : ¬ (0xF0 + c.toNat / 262144 < 0x80) := by omega
    have hc2 : isCont (0x80 + c.toNat / 64 % 64) = true := by
      simp only [isCont, decide_eq_true_eq]; omega
    have hc3 : isCont (0x80 + c.toNat % 64) = true := by
      simp only [isCont, decide_eq_true_eq]; omega
    have hval : (0xF0 + c.toNat / 262144 - 0xF0) * 262144
        + (0x80 + c.toNat / 4096 % 64 - 0x80) * 4096
        + (0x80 + c.toNat / 64 % 64 - 0x80) * 64 + (0x80 + c.toNat % 64 - 0x80) = c.toNat := by
      omega
    simp only [h2, h3, if_false] at l4a l4b l4c
    by_cases ha : 0xF0 + c.toNat / 262144 = 0xF0
    · have hl := l4a ha
      have hr : 0x90 ≤ 0x80 + c.toNat / 4096 % 64 ∧ 0x80 + c.toNat / 4096 % 64 ≤ 0xBF := by
        omega
      simp only [decodeRune, e0, e1, e2, e3, hb, if_false, hl, List.cons_append,
        List.nil_append, hr, hc2, hc3, and_self, if_true, hval, Char.ofNat_toNat,
        List.length_cons, List.length_nil]
    by_cases hd : 0xF0 + c.toNat / 262144 = 0xF4
    · have hl := l4c hd
      have hr : 0x80 ≤ 0x80 + c.toNat / 4096 % 64 ∧ 0x80 + c.toNat / 4096 % 64 ≤ 0x8F := by
        omega
      simp only [decodeRune, e0, e1, e2, e3, hb, if_false, hl, List.cons_append,
        List.nil_append, hr, hc2, hc3, and_self, if_true, hval, Char.ofNat_toNat,
        List.length_cons, List.length_nil]
    · have hl := l4b (by omega)
      have hr : 0x80 ≤ 0x80 + c.toNat / 4096 % 64 ∧ 0x80 + c.toNat / 4096 % 64 ≤ 0xBF := by
        omega
      simp only [decodeRune, e0, e1, e2, e3, hb, if_false, hl, List.cons_append,
        List.nil_append, hr, hc2, hc3, and_self, if_true, hval, Char.ofNat_toNat,
        List.length_cons, List.length_nil]

theorem decodeRunes_encodeUTF8 (s : List Char) :
    ∀ fuel, (encodeUTF8 s).length ≤ fuel → decodeRunes fuel (encodeUTF8 s) = s.map some := by
  induction s with
  | nil =>
    intro fuel _
    cases fuel <;> rfl
  | cons c cs ih =>
    intro fuel hf
    obtain ⟨b0, tl, he, hd⟩ := decodeRune_encodeRune c (encodeUTF8 cs)
    have hlen : (encodeUTF8 (c :: cs)).length = tl.length + 1 + (encodeUTF8 cs).length := by
      simp [encodeUTF8, he]
      omega
    obtain ⟨g, rfl⟩ : ∃ g, fuel = g + 1 := ⟨fuel - 1, by omega⟩
    have hrec := ih g (by omega)
    show decodeRunes (g + 1) (encodeRune c ++ encodeUTF8 cs) = some c :: cs.map some
    rw [he]
    show decodeRunes (g + 1) (b0 :: (tl ++ encodeUTF8 cs)) = some c :: cs.map some
    simp only [decodeRunes, hd, Nat.add_sub_cancel, List.drop_left, hrec]

theorem runes_ofString (s : String) : (GoString.ofString s).runes = s.data.map some :=
  decodeRunes_encodeUTF8 s.data _ (Nat.le_refl _)

theorem toValidUTF8_ofString (s : String) :
    GoString.toValidUTF8 (GoString.ofString s) = s := by
  unfold GoString.toValidUTF8
  rw [runes_ofString, List.map_map]
  have h : ((fun r : Option Char => r.getD replacementChar) ∘ some) = id := rfl
  rw [h, List.map_id]

theorem validUTF8_ofString (s : String) : GoString.ValidUTF8 (GoString.ofString s) := by
  unfold GoString.ValidUTF8
  rw [toValidUTF8_ofString]

theorem hexVal_hexDigit (k : Nat) (h : k < 16) : hexVal (hexDigit k) = some k := by
  interval_cases k <;> decide

theorem getu4_low (n : Nat) (h : n < 256) (rest : List Char) :
    getu4 ('0' :: '0' :: hexDigit (n / 16) :: hexDigit (n % 16) :: rest) = some (n, rest) := by
  have h1 : hexVal (hexDigit (n / 16)) = some (n / 16) := hexVal_hexDigit _ (by omega)
  have h2 : hexVal (hexDigit (n % 16)) = some (n % 16) := hexVal_hexDigit _ (by omega)
  have h0 : hexVal '0' = some 0 := by decide
  simp only [getu4, h0, h1, h2]
  congr 2
  omega

theorem unescapeU_low (c : Char) (h : c.toNat < 256) (rest : List Char) :
    unescapeU ('0' :: '0' :: hexDigit (c.toNat / 16) :: hexDigit (c.toNat % 16) :: rest)
      = some (c, rest) := by
  have hs : ¬ (0xD800 ≤ c.toNat ∧ c.toNat < 0xE000) := by omega
  simp only [unescapeU, getu4_low _ h, hs, if_false, Char.ofNat_toNat]

theorem unescapeU_2028 (rest : List Char) :
    unescapeU ('2' :: '0' :: '2' :: '8' :: rest) = some (' ', rest) := by
  have h : getu4 ('2' :: '0' :: '2' :: '8' :: rest) = some (0x2028, rest) := by
    have h2 : hexVal '2' = some 2 := by decide
    have h0 : hexVal '0' = some 0 := by decide
    have h8 : hexVal '8' = some 8 := by decide
    simp only [getu4, h0, h2, h8]
  have hs : ¬ (0xD800 ≤ 0x2028 ∧ 0x2028 < 0xE000) := by decide
  simp only [unescapeU, h, hs, if_false]

theorem unescapeU_2029 (rest : List Char) :
    unescapeU ('2' :: '0' :: '2' :: '9' :: rest) = some (' ', rest) := by
  have h : getu4 ('2' :: '0' :: '2' :: '9' :: rest) = some (0x2029, rest) := by
    have h2 : hexVal '2' = some 2 := by decide
    have h0 : hexVal '0' = some 0 := by decide
    have h9 : hexVal '9' = some 9 := by decide
    simp only [getu4, h0, h2, h9]
  have hs : ¬ (0xD800 ≤ 0x2029 ∧ 0x2029 < 0xE000) := by decide
  simp only [unescapeU, h, hs, if_false]

theorem unescape_u (rest : List Char) : unescape ('u' :: rest) = unescapeU rest := by
  have e2 : ¬ ('u' = '"') := by decide
  have e3 : ¬ ('u' = '\\') := by decide
  have e4 : ¬ ('u' = '/') := by decide
  have e5 : ¬ ('u' = 'b') := by decide
  have e6 : ¬ ('u' = 'f') := by decide
  have e7 : ¬ ('u' = 'n') := by decide
  have e8 : ¬ ('u' = 'r') := by decide
  have e9 : ¬ ('u' = 't') := by decide
  simp only [unescape, e2, e3, e4, e5, e6, e7, e8, e9, if_false, if_true]

theorem parseString_backslash (fuel : Nat) (cs : List Char) :
    parseString (fuel + 1) ('\\' :: cs) =
      match unescape cs with
      | none => none
      | some (ch, rest) => (parseString fuel rest).map (fun r => (ch :: r.1, r.2)) := by
  have e1 : ¬ ('\\' = '"') := by decide
  simp only [parseString, e1, if_false, if_true]

theorem parseString_plain (fuel : Nat) (c : Char) (cs : List Char)
    (h1 : c ≠ '"') (h2 : c ≠ '\\') (h3 : ¬ c.toNat < 32) :
    parseString (fuel + 1) (c :: cs) = (parseString fuel cs).map (fun r => (c :: r.1, r.2)) := by
  simp only [parseString, h1, h2, h3, if_false]

theorem unescape_simple :
    (∀ rest, unescape ('"' :: rest) = some ('"', rest)) ∧
    (∀ rest, unescape ('\\' :: rest) = some ('\\', rest)) ∧
    (∀ rest, unescape ('b' :: rest) = some ('\x08', rest)) ∧
    (∀ rest, unescape ('f' :: rest) = some ('\x0c', rest)) ∧
    (∀ rest, unescape ('n' :: rest) = some ('\n', rest)) ∧
    (∀ rest, unescape ('r' :: rest) = some ('\r', rest)) ∧
    (∀ rest, unescape ('t' :: rest) = some ('\t', rest)) := by
  refine ⟨?_, ?_, ?_, ?_, ?_, ?_, ?_⟩ <;> intro rest <;> unfold unescape <;> rfl

theorem escapeChar_cases (c : Char) : EscapeCase c := by
  by_cases h1 : c = '"'
  · exact .quote h1 (by rw [escapeChar, if_pos h1])
  by_cases h2 : c = '\\'
  · exact .backslash h2 (by rw [escapeChar, if_neg h1, if_pos h2])
  by_cases h3 : c = '\x08'
  · exact .bs h3 (by rw [escapeChar, if_neg h1, if_neg h2, if_pos h3])
  by_cases h4 : c = '\x0c'
  · exact .ff h4 (by rw [escapeChar, if_neg h1, if_neg h2, if_neg h3, if_pos h4])
  by_cases h5 : c = '\n'
  · exact .nl h5 (by rw [escapeChar, if_neg h1, if_neg h2, if_neg h3, if_neg h4, if_pos h5])
  by_cases h6 : c = '\r'
  · exact .cr h6 (by
      rw [escapeChar, if_neg h1, if_neg h2, if_neg h3, if_neg h4, if_neg h5, if_pos h6])
  by_cases h7 : c = '\t'
  · exact .tab h7 (by
      rw [escapeChar, if_neg h1, if_neg h2, if_neg h3, if_neg h4, if_neg h5, if_neg h6,
        if_pos h7])
  by_cases h8 : c.toNat < 32 ∨ c = '<' ∨ c = '>' ∨ c = '&'
  · refine .hex ?_ (by
      rw [escapeChar, if_neg h1, if_neg h2, if_neg h3, if_neg h4, if_neg h5, if_neg h6,
        if_neg h7, if_pos h8])
    rcases h8 with h | h | h | h
    · omega
    · subst h; decide
    · subst h; decide
    · subst h; decide
  by_cases h9 : c = '\u2028'
  · exact .ls h9 (by
      rw [escapeChar, if_neg h1, if_neg h2, if_neg h3, if_neg h4, if_neg h5, if_neg h6,
        if_neg h7, if_neg h8, if_pos h9])
  by_cases h10 : c = '\u2029'
  · exact .ps h10 (by
      rw [escapeChar, if_neg h1, if_neg h2, if_neg h3, if_neg h4, if_neg h5, if_neg h6,
        if_neg h7, if_neg h8, if_neg h9, if_pos h10])
  · exact .plain h1 h2 (fun h => h8 (Or.inl h)) (by
      rw [escapeChar, if_neg h1, if_neg h2, if_neg h3, if_neg h4, if_neg h5, if_neg h6,
        if_neg h7, if_neg h8, if_neg h9, if_neg h10])

theorem parseString_escapeChar (fuel : Nat) (c : Char) (rest : List Char) :
    parseString (fuel + 1) (escapeChar c ++ rest)
      = (parseString fuel rest).map (fun r => (c :: r.1, r.2)) := by
  obtain ⟨u1, u2, u3, u4, u5, u6, u7⟩ := unescape_simple
  cases escapeChar_cases c with
  | quote h e => rw [e, h, List.cons_append, parseString_backslash, List.cons_append,
      List.nil_append, u1]
  | backslash h e => rw [e, h, List.cons_append, parseString_backslash, List.cons_append,
      List.nil_append, u2]
  | bs h e => rw [e, h, List.cons_append, parseString_backslash, List.cons_append,
      List.nil_append, u3]
  | ff h e => rw [e, h, List.cons_append, parseString_backslash, List.cons_append,
      List.nil_append, u4]
  | nl h e => rw [e, h, List.cons_append, parseString_backslash, List.cons_append,
      List.nil_append, u5]
  | cr h e => rw [e, h, List.cons_append, parseString_backslash, List.cons_append,
      List.nil_append, u6]
  | tab h e => rw [e, h, List.cons_append, parseString_backslash, List.cons_append,
      List.nil_append, u7]
  | hex h e =>
    rw [e]
    show parseString (fuel + 1) ('\\' :: 'u' :: '0' :: '0' :: hexDigit (c.toNat / 16) ::
      hexDigit (c.toNat % 16) :: rest) = _
    rw [parseString_backslash, unescape_u, unescapeU_low c h rest]
  | ls h e =>
    rw [e, h]
    show parseString (fuel + 1) ('\\' :: 'u' :: '2' :: '0' :: '2' :: '8' :: rest) = _
    rw [parseString_backslash, unescape_u, unescapeU_2028]
  | ps h e =>
    rw [e, h]
    show parseString (fuel + 1) ('\\' :: 'u' :: '2' :: '0' :: '2' :: '9' :: rest) = _
    rw [parseString_backslash, unescape_u, unescapeU_2029]
  | plain h1 h2 h3 e =>
    rw [e]
    show parseString (fuel + 1) (c :: rest) = _
    rw [parseString_plain fuel c rest h1 h2 h3]

theorem parseString_escapeChars (s : List Char) :
    ∀ (fuel : Nat) (rest : List Char), s.length < fuel →
      parseString fuel (escapeChars s ++ '"' :: rest) = some (s, rest) := by
  induction s with
  | nil =>
    intro fuel rest h
    obtain ⟨f, rfl⟩ : ∃ f, fuel = f + 1 := ⟨fuel - 1, by simp at h; omega⟩
    simp only [escapeChars, List.nil_append, parseString, if_true]
  | cons c cs ih =>
    intro fuel rest h
    obtain ⟨f, rfl⟩ : ∃ f, fuel = f + 1 := ⟨fuel - 1, by simp at h; omega⟩
    have hf : cs.length < f := by simp at h; omega
    rw [escapeChars, List.append_assoc, parseString_escapeChar, ih f rest hf]
    rfl

theorem length_le_escapeChars (s : List Char) : s.length ≤ (escapeChars s).length := by
  induction s with
  | nil => simp [escapeChars]
  | cons c cs ih =>
    have h1 : 1 ≤ (escapeChar c).length := by
      cases escapeChar_cases c <;> (rename_i e; rw [e]; simp)
    simp only [escapeChars, List.length_cons, List.length_append]
    omega

theorem digitChar_facts (k : Nat) (h : k < 10) :
    (Char.ofNat (48 + k)).isDigit = true ∧ (Char.ofNat (48 + k)).toNat - 48 = k ∧
    (k ≠ 0 → Char.ofNat (48 + k) ≠ '0') ∧ Char.ofNat (48 + k) ≠ '-' := by
  interval_cases k <;> decide

theorem natOfDigits_append (a : List Char) (d : Char) :
    natOfDigits (a ++ [d]) = natOfDigits a * 10 + (d.toNat - 48) := by
  simp [natOfDigits, List.foldl_append]

theorem natDigits_spec : ∀ (fuel n : Nat), n < fuel →
    natDigits fuel n ≠ [] ∧ (∀ d ∈ natDigits fuel n, d.isDigit = true) ∧
    natOfDigits (natDigits fuel n) = n ∧
    (0 < n → ∃ d ds, natDigits fuel n = d :: ds ∧ d ≠ '0') ∧
    (∃ d ds, natDigits fuel n = d :: ds ∧ d ≠ '-') := by
  intro fuel
  induction fuel with
  | zero => intro n h; omega
  | succ f ih =>
    intro n h
    by_cases hn : n < 10
    · obtain ⟨h1, h2, h3, h4⟩ := digitChar_facts n hn
      have e : natDigits (f + 1) n = [Char.ofNat (48 + n)] := by simp [natDigits, hn]
      rw [e]
      refine ⟨by simp, ?_, ?_, ?_, ?_⟩
      · intro d hd
        simp at hd
        rw [hd]; exact h1
      · simp [natOfDigits, h2]
      · intro hpos
        exact ⟨_, [], rfl, h3 (by omega)⟩
      · exact ⟨_, [], rfl, h4⟩
    · have e : natDigits (f + 1) n = natDigits f (n / 10) ++ [Char.ofNat (48 + n % 10)] := by
        simp [natDigits, hn]
      obtain ⟨i1, i2, i3, i4, i5⟩ := ih (n / 10) (by omega)
      obtain ⟨h1, h2, _, _⟩ := digitChar_facts (n % 10) (by omega)
      rw [e]
      refine ⟨by simp, ?_, ?_, ?_, ?_⟩
      · intro d hd
        rcases List.mem_append.1 hd with hd | hd
        · exact i2 d hd
        · simp at hd
          rw [hd]; exact h1
      · rw [natOfDigits_append, i3, h2]
        omega
      · intro _
        obtain ⟨d, ds, hd, hne⟩ := i4 (by omega)
        exact ⟨d, ds ++ [Char.ofNat (48 + n % 10)], by rw [hd]; rfl, hne⟩
      · obtain ⟨d, ds, hd, hne⟩ := i5
        exact ⟨d, ds ++ [Char.ofNat (48 + n % 10)], by rw [hd]; rfl, hne⟩

theorem takeWhile_digits_append (ds t : List Char) (hds : ∀ d ∈ ds, d.isDigit = true)
    (ht : ValueEnd t) :
    (ds ++ t).takeWhile Char.isDigit = ds ∧ (ds ++ t).dropWhile Char.isDigit = t := by
  induction ds with
  | nil =>
    obtain ⟨c, r, rfl, hc⟩ := ht
    have : c.isDigit = false := by rcases hc with h | h <;> subst h <;> decide
    simp [List.takeWhile_cons, List.dropWhile_cons, this]
  | cons d ds ih =>
    have hd : d.isDigit = true := hds d (by simp)
    have := ih (fun x hx => hds x (by simp [hx]))
    simp [List.takeWhile_cons, List.dropWhile_cons, hd, this]

theorem scanFrac_end (t : List Char) (ht : ValueEnd t) : scanFrac t = some ([], t) := by
  obtain ⟨c, r, rfl, hc⟩ := ht
  have : ¬ c = '.' := by rcases hc with h | h <;> subst h <;> decide
  simp only [scanFrac, this, if_false]

theorem scanExp_end (t : List Char) (ht : ValueEnd t) : scanExp t = some ([], t) := by
  obtain ⟨c, r, rfl, hc⟩ := ht
  have : ¬ (c = 'e' ∨ c = 'E') := by rcases hc with h | h <;> subst h <;> decide
  simp only [scanExp, this, if_false]

theorem scanInt_natDigits (fuel n : Nat) (h : n < fuel) (t : List Char) (ht : ValueEnd t) :
    scanInt (natDigits fuel n ++ t) = some (natDigits fuel n, t) := by
  obtain ⟨_, hall, _, hpos, _⟩ := natDigits_spec fuel n h
  by_cases hn : n = 0
  · subst hn
    obtain ⟨f, rfl⟩ : ∃ f, fuel = f + 1 := ⟨fuel - 1, by omega⟩
    have e : natDigits (f + 1) 0 = ['0'] := by simp [natDigits]
    rw [e]
    simp only [List.cons_append, List.nil_append, scanInt, if_true]
  · obtain ⟨d, ds, hd, hne⟩ := hpos (by omega)
    rw [hd] at hall ⊢
    have hdig : d.isDigit = true := hall d (by simp)
    obtain ⟨hs1, hs2⟩ := takeWhile_digits_append ds t (fun x hx => hall x (by simp [hx])) ht
    simp only [List.cons_append, scanInt, hne, if_false, hdig, if_true, hs1, hs2]

theorem parseNumber_encodeInt (n : Int) (t : List Char) (ht : ValueEnd t) :
    parseNumber (encodeInt n ++ t) = some (encodeInt n, t) := by
  have hs := scanInt_natDigits (n.natAbs + 1) n.natAbs (by omega) t ht
  unfold encodeInt
  by_cases hn : n < 0
  · simp only [hn, if_true, parseNumber, List.cons_append, List.head?_cons, List.tail_cons, hs,
      scanFrac_end t ht, scanExp_end t ht, List.append_nil, List.singleton_append,
      List.nil_append]
  · obtain ⟨_, _, _, _, d, ds, hd, hne⟩ := natDigits_spec (n.natAbs + 1) n.natAbs (by omega)
    have hh : ¬ ((natDigits (n.natAbs + 1) n.natAbs ++ t).head? = some '-') := by
      rw [hd]; simpa using hne
    simp only [hn, if_false, parseNumber, hh, hs, scanFrac_end t ht, scanExp_end t ht,
      List.append_nil, List.nil_append]

theorem intOfLit_encodeInt (n : Int) (hlo : -(2 : Int) ^ 63 ≤ n) (hhi : n < (2 : Int) ^ 63) :
    intOfLit (encodeInt n) = some n := by
  obtain ⟨hne, hall, hval, _, d, ds, hd, hdne⟩ :=
    natDigits_spec (n.natAbs + 1) n.natAbs (by omega)
  unfold encodeInt
  by_cases hn : n < 0
  · have hv : -((natOfDigits (natDigits (n.natAbs + 1) n.natAbs) : Nat) : Int) = n := by
      rw [hval]; omega
    have hall2 : (natDigits (n.natAbs + 1) n.natAbs).all Char.isDigit = true :=
      List.all_eq_true.2 hall
    simp only [hn, if_true, intOfLit, List.head?_cons, List.tail_cons, hv, ne_eq, hne,
      not_false_eq_true, hall2, hlo, hhi, and_self]
  · have hv : ((natOfDigits (natDigits (n.natAbs + 1) n.natAbs) : Nat) : Int) = n := by
      rw [hval]; omega
    have hh : ¬ ((natDigits (n.natAbs + 1) n.natAbs).head? = some '-') := by
      rw [hd]; simpa using hdne
    have hall2 : (natDigits (n.natAbs + 1) n.natAbs).all Char.isDigit = true :=
      List.all_eq_true.2 hall
    simp only [hn, if_false, intOfLit, hh, hv, ne_eq, hne, not_false_eq_true, hall2, hlo, hhi,
      and_self, if_true]

theorem encodeInt_head (n : Int) :
    ∃ d ds, encodeInt n = d :: ds ∧ (d = '-' ∨ d.isDigit = true) := by
  obtain ⟨_, hall, _, _, d, ds, hd, _⟩ := natDigits_spec (n.natAbs + 1) n.natAbs (by omega)
  unfold encodeInt
  by_cases hn : n < 0
  · exact ⟨'-', natDigits (n.natAbs + 1) n.natAbs, by simp [hn], Or.inl rfl⟩
  · refine ⟨d, ds, by simp [hn, hd], Or.inr (hall d (by simp [hd]))⟩

theorem parseValue_number (f depth : Nat) (d : Char) (r : List Char)
    (hd : d = '-' ∨ d.isDigit = true) :
    parseValue (f + 1) depth (d :: r) = (parseNumber (d :: r)).map (fun p => (.num p.1, p.2)) := by
  have h1 : ¬ d = '\x7b' := by
    rintro rfl; rcases hd with h | h
    · exact absurd h (by decide)
    · exact absurd h (by decide)
  have h2 : ¬ d = '[' := by
    rintro rfl; rcases hd with h | h
    · exact absurd h (by decide)
    · exact absurd h (by decide)
  have h3 : ¬ d = '"' := by
    rintro rfl; rcases hd with h | h
    · exact absurd h (by decide)
    · exact absurd h (by decide)
  simp only [parseValue, h1, h2, h3, if_false, hd, if_true]

theorem parseValue_encodeInt (f depth : Nat) (n : Int) (t : List Char) (ht : ValueEnd t) :
    parseValue (f + 1) depth (encodeInt n ++ t) = some (.num (encodeInt n), t) := by
  obtain ⟨d, ds, hd, hdd⟩ := encodeInt_head n
  have h := parseNumber_encodeInt n t ht
  rw [hd] at h ⊢
  rw [List.cons_append] at h ⊢
  rw [parseValue_number f depth d _ hdd, h]
  rfl

theorem parseValue_encodeString (f depth : Nat) (s : String) (t : List Char)
    (hf : s.data.length < f) :
    parseValue (f + 1) depth (encodeString s ++ t) = some (.str s.data, t) := by
  have h1 : ¬ '"' = '\x7b' := by decide
  have h2 : ¬ '"' = '[' := by decide
  have hp := parseString_escapeChars s.data f t hf
  simp only [encodeString, List.cons_append, List.append_assoc, List.nil_append] at hp ⊢
  simp only [parseValue, h1, h2, if_false, if_true, hp, Option.map_some']

theorem configValues_members (c : Config) :
    (configValues c).map (fun t => (t.1, t.2.1)) = configMembers c := by
  unfold configValues configMembers
  simp only [List.map_append, List.map_cons, List.map_nil]
  congr 1
  · congr 1
    · congr 1
      · congr 1
        · congr 1
          split <;> rfl
        · split <;> rfl
      · split <;> rfl
    · split <;> rfl
  · split <;> rfl

theorem skipWs_of_not_ws (c : Char) (r : List Char) (h : isWs c = false) :
    skipWs (c :: r) = c :: r := by
  simp [skipWs, h]

theorem skipWs_space (r : List Char) : skipWs (' ' :: r) = skipWs r := by
  have : isWs ' ' = true := by decide
  simp [skipWs, this]

theorem skipWs_newline (r : List Char) : skipWs ('\n' :: r) = skipWs r := by
  have : isWs '\n' = true := by decide
  simp [skipWs, this]

theorem skipWs_memberLine (r : List Char) : skipWs (memberLine ++ r) = skipWs r := by
  simp only [memberLine, List.cons_append, List.nil_append, skipWs_newline, skipWs_space]

theorem skipWs_renderMember (m : String × List Char) (r : List Char) :
    skipWs (renderMember m ++ r) = renderMember m ++ r := by
  have : isWs '"' = false := by decide
  simp only [renderMember, List.cons_append, skipWs_of_not_ws _ _ this]

theorem parseMembers_renderMember (f fuel : Nat) (m : String × List Char) (v : JSON)
    (hm : MemberParsesTo f m v) (tail : List Char) (ht : ValueEnd tail) :
    parseMembers (parseValue f 1) f (fuel + 1) (renderMember m ++ tail) =
      match skipWs tail with
      | [] => none
      | sep :: r4 =>
        if sep = '\x7d' then some ([(m.1.data, v)], r4)
        else if sep = ',' then
          (parseMembers (parseValue f 1) f fuel (skipWs r4)).map
            (fun p => ((m.1.data, v) :: p.1, p.2))
        else none := by
  obtain ⟨h1, h2, h3⟩ := hm
  have hc : isWs ':' = false := by decide
  have e : renderMember m ++ tail = '"' :: (m.1.data ++ '"' :: ':' :: ' ' :: (m.2 ++ tail)) := by
    simp [renderMember]
  rw [e]
  simp only [parseMembers, if_true, h1, skipWs_of_not_ws _ _ hc, skipWs_space, h2, h3 tail ht]

theorem parseMembers_renderMembers (f : Nat) :
    ∀ (ts : List (String × List Char × JSON)), ts ≠ [] →
      (∀ t ∈ ts, MemberParsesTo f (t.1, t.2.1) t.2.2) →
      ∀ (fuel : Nat), ts.length ≤ fuel → ∀ rest : List Char,
        parseMembers (parseValue f 1) f fuel
          (skipWs (renderMembers memberLine (ts.map (fun t => (t.1, t.2.1)))
            ++ '\n' :: '\x7d' :: rest))
          = some (ts.map (fun t => (t.1.data, t.2.2)), rest) := by
  intro ts
  induction ts with
  | nil => intro h; exact absurd rfl h
  | cons t ts ih =>
    intro _ hok fuel hfuel rest
    obtain ⟨g, rfl⟩ : ∃ g, fuel = g + 1 := ⟨fuel - 1, by simp at hfuel; omega⟩
    have ht := hok t (by simp)
    have hb : isWs '\x7d' = false := by decide
    have hcm : isWs ',' = false := by decide
    have hne : ¬ (',' = '\x7d') := by decide
    cases ts with
    | nil =>
      have hend : ValueEnd ('\n' :: '\x7d' :: rest) := ⟨_, _, rfl, Or.inr rfl⟩
      simp only [List.map_cons, List.map_nil, renderMembers, List.append_assoc,
        skipWs_memberLine, skipWs_renderMember,
        parseMembers_renderMember f g _ _ ht _ hend, skipWs_newline,
        skipWs_of_not_ws _ _ hb, if_true]
    | cons t2 ts2 =>
      have hend : ValueEnd (',' :: (renderMembers memberLine
          ((t2 :: ts2).map (fun t => (t.1, t.2.1))) ++ '\n' :: '\x7d' :: rest)) :=
        ⟨_, _, rfl, Or.inl rfl⟩
      have hrec := ih (by simp) (fun x hx => hok x (by simp [hx])) g
        (by simp at hfuel ⊢; omega) rest
      have hunf : renderMembers memberLine ((t :: t2 :: ts2).map (fun t => (t.1, t.2.1)))
          = memberLine ++ renderMember (t.1, t.2.1) ++
            ',' :: renderMembers memberLine ((t2 :: ts2).map (fun t => (t.1, t.2.1))) := by
        simp only [List.map_cons, renderMembers]
      rw [hunf]
      simp only [List.append_assoc, List.cons_append, skipWs_memberLine, skipWs_renderMember]
      rw [parseMembers_renderMember f g _ _ ht _ hend]
      simp only [skipWs_of_not_ws _ _ hcm, hne, if_false, if_true]
      rw [hrec]
      rfl

theorem keyMatches_table :
    keyMatches ['d', 'a', 't', 'a', 'b', 'a', 's', 'e'] "database" = true ∧
    keyMatches ['j', 's', 'o', 'n', 'l', '_', 'e', 'x', 'p', 'o', 'r', 't'] "database" = false ∧
    keyMatches ['j', 's', 'o', 'n', 'l', '_', 'e', 'x', 'p', 'o', 'r', 't'] "jsonl_export" = true ∧
    keyMatches ['b', 'a', 'c', 'k', 'e', 'n', 'd'] "database" = false ∧
    keyMatches ['b', 'a', 'c', 'k', 'e', 'n', 'd'] "jsonl_export" = false ∧
    keyMatches ['b', 'a', 'c', 'k', 'e', 'n', 'd'] "backend" = true ∧
    keyMatches ['l', 'a', 'y', 'o', 'u', 't'] "database" = false ∧
    keyMatches ['l', 'a', 'y', 'o', 'u', 't'] "jsonl_export" = false ∧
    keyMatches ['l', 'a', 'y', 'o', 'u', 't'] "backend" = false ∧
    keyMatches ['l', 'a', 'y', 'o', 'u', 't'] "layout" = true ∧
    keyMatches ['d', 'e', 'l', 'e', 't', 'i', 'o', 'n', 's', '_', 'r', 'e', 't', 'e', 'n', 't', 'i', 'o', 'n', '_', 'd', 'a', 'y', 's']
      "database" = false ∧
    keyMatches ['d', 'e', 'l', 'e', 't', 'i', 'o', 'n', 's', '_', 'r', 'e', 't', 'e', 'n', 't', 'i', 'o', 'n', '_', 'd', 'a', 'y', 's']
      "jsonl_export" = false ∧
    keyMatches ['d', 'e', 'l', 'e', 't', 'i', 'o', 'n', 's', '_', 'r', 'e', 't', 'e', 'n', 't', 'i', 'o', 'n', '_', 'd', 'a', 'y', 's']
      "backend" = false ∧
    keyMatches ['d', 'e', 'l', 'e', 't', 'i', 'o', 'n', 's', '_', 'r', 'e', 't', 'e', 'n', 't', 'i', 'o', 'n', '_', 'd', 'a', 'y', 's']
      "layout" = false ∧
    keyMatches ['d', 'e', 'l', 'e', 't', 'i', 'o', 'n', 's', '_', 'r', 'e', 't', 'e', 'n', 't', 'i', 'o', 'n', '_', 'd', 'a', 'y', 's']
      "deletions_retention_days" = true ∧
    keyMatches ['l', 'a', 's', 't', '_', 'b', 'd', '_', 'v', 'e', 'r', 's', 'i', 'o', 'n']
      "database" = false ∧
    keyMatches ['l', 'a', 's', 't', '_', 'b', 'd', '_', 'v', 'e', 'r', 's', 'i', 'o', 'n']
      "jsonl_export" = false ∧
    keyMatches ['l', 'a', 's', 't', '_', 'b', 'd', '_', 'v', 'e', 'r', 's', 'i', 'o', 'n']
      "backend" = false ∧
    keyMatches ['l', 'a', 's', 't', '_', 'b', 'd', '_', 'v', 'e', 'r', 's', 'i', 'o', 'n']
      "layout" = false ∧
    keyMatches ['l', 'a', 's', 't', '_', 'b', 'd', '_', 'v', 'e', 'r', 's', 'i', 'o', 'n']
      "deletions_retention_days" = false ∧
    keyMatches ['l', 'a', 's', 't', '_', 'b', 'd', '_', 'v', 'e', 'r', 's', 'i', 'o', 'n']
      "last_bd_version" = true := by
  decide

theorem decodeMember_database (st : Config × Option JSONError) (s : String) :
    decodeMember st
        (['d', 'a', 't', 'a', 'b', 'a', 's', 'e'], JSON.str s.data)
      = ({ st.1 with Database := s }, firstError st.2 none) := by
  obtain ⟨k1, _⟩ :=
    keyMatches_table
  simp only [decodeMember, k1, if_true, decodeString]

theorem decodeMember_jsonl_export (st : Config × Option JSONError) (s : String) :
    decodeMember st
        (['j', 's', 'o', 'n', 'l', '_', 'e', 'x', 'p', 'o', 'r', 't'], JSON.str s.data)
      = ({ st.1 with JSONLExport := s }, firstError st.2 none) := by
  obtain ⟨_, k1, k2, _⟩ :=
    keyMatches_table
  simp only [decodeMember, k1, k2, if_true, decodeString]
  rfl

theorem decodeMember_backend (st : Config × Option JSONError) (s : String) :
    decodeMember st
        (['b', 'a', 'c', 'k', 'e', 'n', 'd'], JSON.str s.data)
      = ({ st.1 with Backend := s }, firstError st.2 none) := by
  obtain ⟨_, _, _, k1, k2, k3, _⟩ :=
    keyMatches_table
  simp only [decodeMember, k1, k2, k3, if_true, decodeString]
  rfl

theorem decodeMember_layout (st : Config × Option JSONError) (s : String) :
    decodeMember st
        (['l', 'a', 'y', 'o', 'u', 't'], JSON.str s.data)
      = ({ st.1 with Layout := s }, firstError st.2 none) := by
  obtain ⟨_, _, _, _, _, _, k1, k2, k3, k4, _⟩ :=
    keyMatches_table
  simp only [decodeMember, k1, k2, k3, k4, if_true, decodeString]
  rfl

theorem decodeMember_deletions_retention_days (st : Config × Option JSONError) (n : Int)
    (hlo : -(2 : Int) ^ 63 ≤ n) (hhi : n < (2 : Int) ^ 63) :
    decodeMember st
        (['d', 'e', 'l', 'e', 't', 'i', 'o', 'n', 's', '_', 'r', 'e', 't', 'e', 'n', 't', 'i', 'o', 'n', '_', 'd', 'a', 'y', 's'], JSON.num (encodeInt n))
      = ({ st.1 with DeletionsRetentionDays := n }, firstError st.2 none) := by
  obtain ⟨_, _, _, _, _, _, _, _, _, _, k1, k2, k3, k4, k5, _⟩ :=
    keyMatches_table
  simp only [decodeMember, k1, k2, k3, k4, k5, if_true, decodeInt, intOfLit_encodeInt n hlo hhi]
  rfl

theorem decodeMember_last_bd_version (st : Config × Option JSONError) (s : String) :
    decodeMember st
        (['l', 'a', 's', 't', '_', 'b', 'd', '_', 'v', 'e', 'r', 's', 'i', 'o', 'n'], JSON.str s.data)
      = ({ st.1 with LastBdVersion := s }, firstError st.2 none) := by
  obtain ⟨_, _, _, _, _, _, _, _, _, _, _, _, _, _, _, k1, k2, k3, k4, k5, k6⟩ :=
    keyMatches_table
  simp only [decodeMember, k1, k2, k3, k4, k5, k6, if_true, decodeString]
  rfl

theorem decode_configValues (c : Config)
    (hlo : -(2 : Int) ^ 63 ≤ c.DeletionsRetentionDays)
    (hhi : c.DeletionsRetentionDays < (2 : Int) ^ 63) :
    ((configValues c).map (fun t => (t.1.data, t.2.2))).foldl decodeMember (zeroConfig, none)
      = (c, none) := by
  obtain ⟨db, jl, be, ly, dr, lv⟩ := c
  simp only at hlo hhi
  simp only [configValues, List.map_append, List.foldl_append, List.map_cons, List.map_nil,
    List.foldl_cons, List.foldl_nil]
  by_cases h1 : jl = "" <;> by_cases h2 : be = "" <;> by_cases h3 : ly = "" <;>
    by_cases h4 : dr = 0 <;> by_cases h5 : lv = "" <;>
    simp only [h1, h2, h3, h4, h5, if_true, if_false, List.map_cons, List.map_nil,
      List.foldl_cons, List.foldl_nil, decodeMember_database, decodeMember_jsonl_export,
      decodeMember_backend, decodeMember_layout,
      decodeMember_deletions_retention_days _ dr hlo hhi, decodeMember_last_bd_version,
      firstError, zeroConfig]

theorem isWs_false_of_number_head (d : Char) (hd : d = '-' ∨ d.isDigit = true) :
    isWs d = false := by
  by_contra h
  have hw : isWs d = true := by simpa using h
  have h4 : d = ' ' ∨ d = '\t' ∨ d = '\r' ∨ d = '\n' := by simpa [isWs] using hw
  rcases h4 with h | h | h | h <;> subst h <;> rcases hd with h' | h' <;>
    exact absurd h' (by decide)

theorem memberParsesTo_string (f : Nat) (name s : String)
    (hname : escapeChars name.data = name.data) (hn : name.data.length < f)
    (hs : s.data.length + 1 < f) :
    MemberParsesTo f (name, encodeString s) (JSON.str s.data) := by
  refine ⟨?_, ?_, ?_⟩
  · intro r
    have := parseString_escapeChars name.data f r hn
    rwa [hname] at this
  · intro t
    have hq : isWs '"' = false := by decide
    simp only [encodeString, List.cons_append, skipWs_of_not_ws _ _ hq]
  · intro t _
    obtain ⟨g, rfl⟩ : ∃ g, f = g + 1 := ⟨f - 1, by omega⟩
    exact parseValue_encodeString g 1 s t (by omega)

theorem memberParsesTo_int (f : Nat) (name : String) (n : Int)
    (hname : escapeChars name.data = name.data) (hn : name.data.length < f) :
    MemberParsesTo f (name, encodeInt n) (JSON.num (encodeInt n)) := by
  refine ⟨?_, ?_, ?_⟩
  · intro r
    have := parseString_escapeChars name.data f r hn
    rwa [hname] at this
  · intro t
    obtain ⟨d, ds, hd, hdd⟩ := encodeInt_head n
    simp only [hd, List.cons_append, skipWs_of_not_ws _ _ (isWs_false_of_number_head d hdd)]
  · intro t ht
    obtain ⟨g, rfl⟩ : ∃ g, f = g + 1 := ⟨f - 1, by omega⟩
    exact parseValue_encodeInt g 1 n t ht

theorem renderMember_length (m : String × List Char) :
    (renderMember m).length = m.1.data.length + m.2.length + 4 := by
  simp only [renderMember, List.length_cons, List.length_append]
  omega

theorem renderMember_le_renderMembers (nl : List Char) :
    ∀ (ms : List (String × List Char)) (m : String × List Char), m ∈ ms →
      (renderMember m).length ≤ (renderMembers nl ms).length := by
  intro ms
  induction ms with
  | nil => intro m h; simp at h
  | cons a rest ih =>
    intro m hm
    cases rest with
    | nil =>
      simp at hm
      subst hm
      simp [renderMembers]
    | cons b rest2 =>
      have hunf : renderMembers nl (a :: b :: rest2)
          = nl ++ renderMember a ++ ',' :: renderMembers nl (b :: rest2) := by
        simp only [renderMembers]
      rw [hunf]
      rcases List.mem_cons.1 hm with h | h
      · subst h
        simp only [List.length_append, List.length_cons]
        omega
      · have := ih m h
        simp only [List.length_append, List.length_cons]
        omega

theorem length_le_renderMembers (nl : List Char) :
    ∀ (ms : List (String × List Char)), ms.length ≤ (renderMembers nl ms).length := by
  intro ms
  induction ms with
  | nil => simp
  | cons a rest ih =>
    cases rest with
    | nil =>
      simp only [renderMembers, renderMember, List.length_cons, List.length_append,
        List.length_nil]
      omega
    | cons b rest2 =>
      have hunf : renderMembers nl (a :: b :: rest2)
          = nl ++ renderMember a ++ ',' :: renderMembers nl (b :: rest2) := by
        simp only [renderMembers]
      rw [hunf]
      simp only [List.length_append, List.length_cons] at ih ⊢
      omega

theorem encodeString_length (s : String) : s.data.length + 2 ≤ (encodeString s).length := by
  have := length_le_escapeChars s.data
  simp only [encodeString, List.length_cons, List.length_append, List.length_nil]
  omega

theorem memberNames_plain :
    escapeChars "database".data = "database".data ∧
    escapeChars "jsonl_export".data = "jsonl_export".data ∧
    escapeChars "backend".data = "backend".data ∧
    escapeChars "layout".data = "layout".data ∧
    escapeChars "deletions_retention_days".data = "deletions_retention_days".data ∧
    escapeChars "last_bd_version".data = "last_bd_version".data := by
  decide

theorem configValues_parse (c : Config) (f : Nat)
    (hf : (renderMembers memberLine (configMembers c)).length ≤ f) :
    ∀ t ∈ configValues c, MemberParsesTo f (t.1, t.2.1) t.2.2 := by
  intro t ht
  have hmem : (t.1, t.2.1) ∈ configMembers c := by
    rw [← configValues_members]
    exact List.mem_map_of_mem (fun t => (t.1, t.2.1)) ht
  have hlen := renderMember_le_renderMembers memberLine _ _ hmem
  rw [renderMember_length] at hlen
  dsimp only at hlen
  obtain ⟨n1, n2, n3, n4, n5, n6⟩ := memberNames_plain
  have hstr : ∀ (name s : String), escapeChars name.data = name.data →
      t = (name, encodeString s, JSON.str s.data) →
      MemberParsesTo f (t.1, t.2.1) t.2.2 := by
    intro name s hname e
    have e1 : t.1 = name := by rw [e]
    have e2 : t.2.1 = encodeString s := by rw [e]
    have e3 : t.2.2 = JSON.str s.data := by rw [e]
    have := encodeString_length s
    rw [e1, e2] at hlen
    rw [e1, e2, e3]
    exact memberParsesTo_string f name s hname (by omega) (by omega)
  unfold configValues at ht
  simp only [List.mem_append, List.mem_singleton] at ht
  rcases ht with ((((h | h) | h) | h) | h) | h
  · exact hstr _ _ n1 h
  · split at h
    · simp at h
    · exact hstr _ _ n2 (List.mem_singleton.1 h)
  · split at h
    · simp at h
    · exact hstr _ _ n3 (List.mem_singleton.1 h)
  · split at h
    · simp at h
    · exact hstr _ _ n4 (List.mem_singleton.1 h)
  · split at h
    · simp at h
    · have e := List.mem_singleton.1 h
      have e1 : t.1 = "deletions_retention_days" := by rw [e]
      have e2 : t.2.1 = encodeInt c.DeletionsRetentionDays := by rw [e]
      have e3 : t.2.2 = JSON.num (encodeInt c.DeletionsRetentionDays) := by rw [e]
      rw [e1, e2] at hlen
      rw [e1, e2, e3]
      exact memberParsesTo_int f _ _ n5 (by omega)
  · split at h
    · simp at h
    · exact hstr _ _ n6 (List.mem_singleton.1 h)

theorem configValues_ne_nil (c : Config) : configValues c ≠ [] := by
  simp [configValues]

theorem parseValue_object (f depth : Nat) (body r2 : List Char)
    (hdepth : depth < maxNestingDepth) (hq : skipWs body = '"' :: r2) :
    parseValue (f + 1) depth ('\x7b' :: body) =
      (parseMembers (parseValue f (depth + 1)) f f (skipWs body)).map
        (fun p => (JSON.obj p.1, p.2)) := by
  have h1 : ¬ maxNestingDepth ≤ depth := by omega
  have h2 : ¬ ('"' = '\x7d') := by decide
  simp only [parseValue, if_true, h1, if_false, hq, h2]

theorem skipWs_renderMembers_head (ms : List (String × List Char)) (hne : ms ≠ [])
    (tail : List Char) :
    ∃ r2, skipWs (renderMembers memberLine ms ++ tail) = '"' :: r2 := by
  cases ms with
  | nil => exact absurd rfl hne
  | cons m rest =>
    cases rest with
    | nil =>
      refine ⟨(m.1.data ++ '"' :: ':' :: ' ' :: m.2) ++ tail, ?_⟩
      simp only [renderMembers, List.append_assoc, skipWs_memberLine, skipWs_renderMember]
      simp [renderMember]
    | cons m2 rest2 =>
      refine ⟨(m.1.data ++ '"' :: ':' :: ' ' :: m.2) ++
        (',' :: renderMembers memberLine (m2 :: rest2) ++ tail), ?_⟩
      have hunf : renderMembers memberLine (m :: m2 :: rest2)
          = memberLine ++ renderMember m ++ ',' :: renderMembers memberLine (m2 :: rest2) := by
        simp only [renderMembers]
      rw [hunf]
      simp only [List.append_assoc, skipWs_memberLine, skipWs_renderMember]
      simp [renderMember]

theorem parseJSON_configText (c : Config) :
    parseJSON (configText c)
      = some (JSON.obj ((configValues c).map (fun t => (t.1.data, t.2.2)))) := by
  have hb : isWs '\x7b' = false := by decide
  have hlen : (configText c).length = (renderMembers memberLine (configMembers c)).length + 3 := by
    simp [configText]
  have hne := configValues_ne_nil c
  have hok := configValues_parse c (configText c).length (by omega)
  have hcount : (configValues c).length ≤ (configText c).length := by
    have := length_le_renderMembers memberLine (configMembers c)
    rw [← configValues_members, List.length_map] at this
    rw [hlen, ← configValues_members]
    omega
  have hmain := parseMembers_renderMembers (configText c).length (configValues c) hne hok
    (configText c).length hcount []
  rw [configValues_members] at hmain
  obtain ⟨r2, hq⟩ := skipWs_renderMembers_head (configMembers c)
    (by rw [← configValues_members]; simpa using hne) ['\n', '\x7d']
  have hpv : parseValue ((configText c).length + 1) 0 (configText c)
      = some (JSON.obj ((configValues c).map (fun t => (t.1.data, t.2.2))), []) := by
    show parseValue ((configText c).length + 1) 0
      ('\x7b' :: (renderMembers memberLine (configMembers c) ++ ['\n', '\x7d'])) = _
    rw [parseValue_object _ 0 _ r2 (by decide) hq, hmain]
    rfl
  have hsk : skipWs (configText c) = configText c := skipWs_of_not_ws _ _ hb
  unfold parseJSON
  rw [hsk, hpv]
  simp only [skipWs, if_true]

theorem marshalIndent_eq (c : Config) :
    MarshalIndent c "" "  " = .ok (String.mk (configText c)) := rfl

/-- The decoder reads back what the encoder wrote: for a Config whose
DeletionsRetentionDays is within 64 bits, unmarshalling the text that
`MarshalIndent(c, "", "  ")` produces gives `c`, the omitted fields included. -/
theorem unmarshal_configText (c : Config)
    (hlo : -(2 : Int) ^ 63 ≤ c.DeletionsRetentionDays)
    (hhi : c.DeletionsRetentionDays < (2 : Int) ^ 63) :
    Unmarshal (String.mk (configText c)) = .ok c := by
  unfold Unmarshal
  show (match parseJSON (configText c) with
    | none => Except.error JSONError.malformed
    | some JSON.null => Except.ok zeroConfig
    | some (JSON.obj members) =>
      match members.foldl decodeMember (zeroConfig, none) with
      | (cfg, none) => Except.ok cfg
      | (_, some e) => Except.error e
    | some _ => Except.error (JSONError.typeMismatch "")) = Except.ok c
  rw [parseJSON_configText]
  simp only [decode_configValues c hlo hhi]

theorem splitSlash_ne_nil (p : List Char) : splitSlash p ≠ [] := by
  cases p with
  | nil => simp [splitSlash]
  | cons c cs =>
    unfold splitSlash
    split
    · simp
    · split <;> simp

theorem splitSlash_append (a b : List Char) :
    splitSlash (a ++ '/' :: b) = splitSlash a ++ splitSlash b := by
  induction a with
  | nil => simp [splitSlash]
  | cons c cs ih =>
    by_cases hc : c = '/'
    · simp [splitSlash, hc, ih]
    · have hne := splitSlash_ne_nil cs
      cases hs : splitSlash cs with
      | nil => exact absurd hs hne
      | cons h t =>
        simp only [List.cons_append, splitSlash, hc, if_false, List.append_eq, ih, hs]

theorem splitSlash_plain (name : List Char) (h : '/' ∉ name) : splitSlash name = [name] := by
  induction name with
  | nil => rfl
  | cons c cs ih =>
    have hc : ¬ c = '/' := fun e => h (by simp [e])
    have := ih (fun hm => h (by simp [hm]))
    simp only [splitSlash, hc, if_false, this]

theorem cleanStep_plain (rooted : Bool) (stack : List (List Char)) (name : List Char)
    (h : PlainName name) : cleanStep rooted stack name = name :: stack := by
  obtain ⟨h1, _, h3, h4⟩ := h
  have h13 : ¬ (name = [] ∨ name = ['.']) := by
    rintro (e | e)
    · exact h1 e
    · exact h3 e
  simp only [cleanStep, h13, h4, if_false]

theorem renderRev_cons (name : List Char) (stack : List (List Char)) :
    renderRev (name :: stack) =
      (match stack with
        | [] => []
        | top :: below => renderRev (top :: below) ++ ['/']) ++ name := by
  cases stack with
  | nil => simp [renderRev]
  | cons top below => simp [renderRev]

theorem join_plain (d : String) (name : String) (h : PlainName name.data) :
    Join [d, name] = String.mk (dirLead d ++ name.data) := by
  have hname : ¬ name = "" := by
    intro e
    exact h.1 (by rw [e])
  by_cases hd : d = ""
  · subst hd
    have hh : ¬ (name.data.head? = some '/') := by
      intro e
      apply h.2.1
      cases hn : name.data with
      | nil => rw [hn] at e; simp at e
      | cons c cs =>
        rw [hn] at e
        simp at e
        simp [e]
    have hdrop : ["", name].dropWhile (fun e => decide (e = "")) = [name] := by
      simp [List.dropWhile, hname]
    have hstack : cleanStack name.data = [name.data] := by
      simp only [cleanStack, splitSlash_plain _ h.2.1, List.foldl_cons, List.foldl_nil,
        cleanStep_plain _ _ _ h]
    simp only [Join, hdrop, joinSlash, Clean, h.1, if_false, hstack, renderRev, hh, dirLead]
    simp
  · have hdata : d.data ≠ [] := by
      intro e
      exact hd (String.ext e)
    have hdrop : [d, name].dropWhile (fun e => decide (e = "")) = [d, name] := by
      simp [List.dropWhile, hd]
    have hhead : (d.data ++ '/' :: name.data).head? = d.data.head? := by
      cases hdd : d.data with
      | nil => exact absurd hdd hdata
      | cons c cs => simp
    have hne : ¬ (d.data ++ '/' :: name.data = []) := by simp
    have hstack : cleanStack (d.data ++ '/' :: name.data)
        = name.data :: (splitSlash d.data).foldl (cleanStep (d.data.head? = some '/')) [] := by
      simp only [cleanStack, hhead, splitSlash_append, splitSlash_plain _ h.2.1, List.foldl_append,
        List.foldl_cons, List.foldl_nil, cleanStep_plain _ _ _ h]
    have hbody : ¬ (renderRev (name.data ::
        (splitSlash d.data).foldl (cleanStep (d.data.head? = some '/')) []) = []) := by
      rw [renderRev_cons]
      simp [h.1]
    simp only [Join, hdrop, joinSlash, Clean, hne, if_false, hstack, hhead, dirLead, hdata]
    rw [renderRev_cons] at hbody ⊢
    by_cases hr : d.data.head? = some '/'
    · simp only [hr, if_true, List.cons_append, List.nil_append]
    · simp only [hr, if_false, List.nil_append]
      rw [if_neg]
      intro e
      exact h.1 (List.append_eq_nil.1 e).2

theorem plainName_metadata : PlainName "metadata.json".data :=
  ⟨by decide, by decide, by decide, by decide⟩

theorem plainName_config : PlainName "config.json".data :=
  ⟨by decide, by decide, by decide, by decide⟩

theorem configPath_ne_legacy (d : String) : ConfigPath d ≠ Join [d, "config.json"] := by
  unfold ConfigPath ConfigFileName
  rw [join_plain d _ plainName_metadata, join_plain d _ plainName_config]
  intro e
  have e2 : dirLead d ++ "metadata.json".data = dirLead d ++ "config.json".data :=
    congrArg String.data e
  have e3 := List.append_cancel_left e2
  exact absurd e3 (by decide)

theorem intOfLit_range (lit : List Char) (n : Int) (h : intOfLit lit = some n) :
    -(2 : Int) ^ 63 ≤ n ∧ n < (2 : Int) ^ 63 := by
  unfold intOfLit at h
  by_cases hneg : lit.head? = some '-'
  · simp only [hneg, if_true] at h
    split at h
    · next hc =>
      have e := Option.some.inj h
      rw [← e]
      exact ⟨hc.2.2.1, hc.2.2.2⟩
    · cases h
  · simp only [hneg, if_false] at h
    split at h
    · next hc =>
      have e := Option.some.inj h
      rw [← e]
      exact ⟨hc.2.2.1, hc.2.2.2⟩
    · cases h

theorem decodeInt_range (field : String) (cur : Int) (v : JSON)
    (hcur : -(2 : Int) ^ 63 ≤ cur ∧ cur < (2 : Int) ^ 63) :
    -(2 : Int) ^ 63 ≤ (decodeInt field cur v).1 ∧ (decodeInt field cur v).1 < (2 : Int) ^ 63 := by
  cases v with
  | num lit =>
    cases h : intOfLit lit with
    | none =>
      simp only [decodeInt, h]
      exact hcur
    | some n =>
      simp only [decodeInt, h]
      exact intOfLit_range lit n h
  | null => exact hcur
  | bool b => exact hcur
  | str s => exact hcur
  | arr l => exact hcur
  | obj l => exact hcur

theorem decodeMember_range (st : Config × Option JSONError) (m : List Char × JSON)
    (h : st.1.InRange) : (decodeMember st m).1.InRange := by
  unfold decodeMember
  simp only
  split
  · exact h
  split
  · exact h
  split
  · exact h
  split
  · exact h
  split
  · exact decodeInt_range _ _ _ h
  split
  · exact h
  · exact h

theorem foldl_decodeMember_range (ms : List (List Char × JSON)) :
    ∀ st : Config × Option JSONError, st.1.InRange → (ms.foldl decodeMember st).1.InRange := by
  induction ms with
  | nil => intro st h; exact h
  | cons m rest ih =>
    intro st h
    exact ih _ (decodeMember_range st m h)

theorem zeroConfig_inRange : zeroConfig.InRange := by
  unfold Config.InRange zeroConfig
  constructor <;> norm_num

theorem unmarshal_inRange (data : String) (cfg : Config) (h : Unmarshal data = .ok cfg) :
    cfg.InRange := by
  unfold Unmarshal at h
  cases hp : parseJSON data.data with
  | none => rw [hp] at h; cases h
  | some v =>
    rw [hp] at h
    cases v with
    | null =>
      simp only at h
      cases h
      exact zeroConfig_inRange
    | obj ms =>
      simp only at h
      have hr := foldl_decodeMember_range ms (zeroConfig, none) zeroConfig_inRange
      cases hf : ms.foldl decodeMember (zeroConfig, none) with
      | mk cfg2 e =>
        rw [hf] at h hr
        cases e with
        | none =>
          simp only at h
          cases h
          exact hr
        | some e => simp only at h; cases h
    | bool b => simp only at h; cases h
    | num l => simp only at h; cases h
    | str s => simp only at h; cases h
    | arr l => simp only at h; cases h

theorem isNotExist_refusal (op p : String) (r : Refusal) :
    IsNotExist (.pathError op p r.toErrno) = false := by
  cases r <;> rfl

/-- A read that succeeds has found a file with that content. -/
theorem readFile_ok_node (fs : FS) (p data : String) (h : ReadFile fs p = .ok data) :
    ∃ mode, fs.node p = some (.file data mode) := by
  unfold ReadFile at h
  cases hr : fs.readErr p with
  | some r => rw [hr] at h; cases h
  | none =>
    rw [hr] at h
    cases hn : fs.node p with
    | none => rw [hn] at h; cases h
    | some n =>
      rw [hn] at h
      cases n with
      | dir m => cases h
      | file data2 m =>
        simp only at h
        split at h
        · cases h; exact ⟨m, rfl⟩
        · cases h

/-- A read reports "no such file" only when no entry is there. -/
theorem readFile_notExist_node (fs : FS) (p : String) (e : Error)
    (h : ReadFile fs p = .error e) (hne : IsNotExist e = true) : fs.node p = none := by
  unfold ReadFile at h
  cases hr : fs.readErr p with
  | some r =>
    rw [hr] at h
    cases h
    rw [isNotExist_refusal] at hne
    cases hne
  | none =>
    rw [hr] at h
    cases hn : fs.node p with
    | none => rfl
    | some n =>
      rw [hn] at h
      cases n with
      | dir m => cases h; cases hne
      | file data2 m =>
        simp only at h
        split at h
        · cases h
        · cases h; cases hne

/-- With no refusal, reading an absent entry reports "no such file". -/
theorem readFile_of_absent (fs : FS) (p : String) (hr : fs.readErr p = none)
    (h : fs.node p = none) : ReadFile fs p = .error (.pathError "open" p .ENOENT) := by
  simp only [ReadFile, hr, h]

theorem node_none_of_not_exists (fs : FS) (p : String) (h : ¬ fs.Exists p) :
    fs.node p = none := by
  unfold FS.Exists at h
  cases hn : fs.node p with
  | none => rfl
  | some n => simp [hn] at h

/-- Reading an entry that exists does not report "no such file". -/
theorem isNotExist_false_of_exists (fs : FS) (p : String) (e : Error) (hex : fs.Exists p)
    (h : ReadFile fs p = .error e) : IsNotExist e = false := by
  cases hne : IsNotExist e with
  | false => rfl
  | true =>
    have hn := readFile_notExist_node fs p e h hne
    unfold FS.Exists at hex
    rw [hn] at hex
    cases hex

theorem exists_of_node (fs : FS) (p : String) (n : Node) (h : fs.node p = some n) :
    fs.Exists p := by
  unfold FS.Exists
  rw [h]
  rfl

/-- `Load` when the read of `metadata.json` reports "no such file" and that of
`config.json` gives a text that decodes to `cfg`: the outcome is that of saving
`cfg`. -/
theorem load_legacy_eq (fs : FS) (d data : String) (cfg : Config) (e0 : Error)
    (hmeta : ReadFile fs (ConfigPath d) = .error e0) (hne : IsNotExist e0 = true)
    (hlegacy : ReadFile fs (Join [d, "config.json"]) = .ok data)
    (hparse : Unmarshal data = .ok cfg) :
    Load fs d =
      match cfg.Save fs d with
      | (some err3, fs1) =>
        ((none, some (.wrapped "migrating config to metadata.json" err3)), fs1)
      | (none, fs1) => ((some cfg, none), (Remove fs1 (Join [d, "config.json"])).2) := by
  simp only [Load, hmeta, hne, if_true, hlegacy, hparse]

/-- `Load` when the read of `metadata.json` gives a text. -/
theorem load_primary_ok (fs : FS) (d data : String)
    (h : ReadFile fs (ConfigPath d) = .ok data) :
    Load fs d =
      match Unmarshal data with
      | .error e => ((none, some (.wrapped "parsing config" (.json e))), fs)
      | .ok cfg => ((some cfg, none), fs) := by
  simp only [Load, h]

/-- `Load` when the read of `metadata.json` fails otherwise than by "no such
file". -/
theorem load_primary_err (fs : FS) (d : String) (e : Error)
    (h : ReadFile fs (ConfigPath d) = .error e) (hne : IsNotExist e = false) :
    Load fs d = ((none, some (.wrapped "reading config" e)), fs) := by
  simp [Load, h, hne]

/-- `Save` in terms of the state: refused by the system, refused because a
directory is in the way or because the file may not be written, or the file
written. -/
theorem save_eq (c : Config) (fs : FS) (d : String) :
    c.Save fs d =
      match fs.writeErr (ConfigPath d) with
      | some e => (some (.wrapped "writing config" (.pathError "open" (ConfigPath d) e)), fs)
      | none =>
        match fs.node (ConfigPath d) with
        | some (.dir _) =>
          (some (.wrapped "writing config" (.pathError "open" (ConfigPath d) .EISDIR)), fs)
        | some (.file _ mode) =>
          if fs.mayOpen mode 0o200 then
            (none, fs.set (ConfigPath d) (some (.file (String.mk (configText c)) mode)))
          else
            (some (.wrapped "writing config" (.pathError "open" (ConfigPath d) .EACCES)), fs)
        | none =>
          (none, fs.set (ConfigPath d)
            (some (.file (String.mk (configText c)) (0o600 ^^^ (0o600 &&& fs.umask))))) := by
  simp only [Config.Save, marshalIndent_eq, WriteFile]
  cases fs.writeErr (ConfigPath d) with
  | some e => rfl
  | none =>
    cases fs.node (ConfigPath d) with
    | none => rfl
    | some n =>
      cases n with
      | dir m => rfl
      | file old m =>
        by_cases hm : fs.mayOpen m 0o200 = true
        · simp [hm]
        · simp [hm]

/-- A save either fails and leaves the state as it was, or writes the text of
the configuration into `metadata.json`: with the mode 0600 less the umask when
nothing was there, with the mode the file had when one was there. -/
theorem save_cases (c : Config) (fs : FS) (d : String) :
    (∃ err, c.Save fs d = (some err, fs)) ∨
    (∃ mode, c.Save fs d
        = (none, fs.set (ConfigPath d) (some (.file (String.mk (configText c)) mode))) ∧
      (fs.node (ConfigPath d) = none → mode = 0o600 ^^^ (0o600 &&& fs.umask)) ∧
      (∀ old m, fs.node (ConfigPath d) = some (.file old m) → mode = m)) := by
  rw [save_eq]
  cases fs.writeErr (ConfigPath d) with
  | some e => exact Or.inl ⟨_, rfl⟩
  | none =>
    cases hn : fs.node (ConfigPath d) with
    | none =>
      refine Or.inr ⟨_, rfl, fun _ => rfl, ?_⟩
      intro old m h
      cases h
    | some n =>
      cases n with
      | dir m => exact Or.inl ⟨_, rfl⟩
      | file old m =>
        simp only
        split
        · refine Or.inr ⟨m, rfl, ?_, ?_⟩
          · intro h; cases h
          · intro old2 m2 h
            cases h
            rfl
        · exact Or.inl ⟨_, rfl⟩

theorem set_node_same (fs : FS) (p : String) (n : Option Node) : (fs.set p n).node p = n := by
  simp [FS.set]

theorem set_node_other (fs : FS) (p q : String) (n : Option Node) (h : q ≠ p) :
    (fs.set p n).node q = fs.node q := by
  simp [FS.set, h]

/-- With no refusal, `os.Stat` succeeds exactly on the entries that exist. -/
theorem statOk_iff_exists (fs : FS) (p : String) (hs : fs.statErr p = none) :
    fs.StatOk p ↔ fs.Exists p := by
  unfold FS.StatOk Stat FS.Exists
  rw [hs]
  cases h : fs.node p with
  | none => simp
  | some n => cases n <;> simp

/-- On an absent entry `os.Stat` fails, refused or not. -/
theorem not_statOk_of_not_exists (fs : FS) (p : String) (h : ¬ fs.Exists p) :
    ¬ fs.StatOk p := by
  have hn := node_none_of_not_exists fs p h
  rintro ⟨info, hi⟩
  unfold Stat at hi
  rw [hn] at hi
  cases hs : fs.statErr p with
  | none => rw [hs] at hi; cases hi
  | some r => rw [hs] at hi; cases hi

theorem stat_error_of_not_statOk (fs : FS) (p : String) (h : ¬ fs.StatOk p) :
    ∃ e, Stat fs p = .error e := by
  cases hs : Stat fs p with
  | error e => exact ⟨e, rfl⟩
  | ok info => exact absurd ⟨info, hs⟩ h

theorem stat_isDir_iff (fs : FS) (p : String) :
    (match Stat fs p with
      | .ok info => info.IsDir
      | .error _ => false) = true ↔ fs.StatDir p := by
  unfold FS.StatDir
  cases hs : Stat fs p with
  | error e => simp
  | ok info =>
    obtain ⟨isDir, mode⟩ := info
    simp

theorem useVarLayout_iff (c : Config) (env : Env) (fs : FS) (d : String)
    (henv : Getenv env "BD_LEGACY_LAYOUT" ≠ "1") :
    c.useVarLayout env fs d = true ↔
      (c.Layout = "v2" ∨ (c.Layout = "" ∧ fs.StatDir (Join [d, "var"]))) := by
  simp only [Config.useVarLayout, henv, if_false, LayoutV1, LayoutV2]
  by_cases h2 : c.Layout = "v2"
  · simp [h2]
  · by_cases h0 : c.Layout = ""
    · have hne : ¬ ("" : String) = "v2" := by decide
      have hne1 : ¬ (("" : String) = "v1" ∨ ("" : String) ≠ "") := by decide
      simp only [h0, hne, hne1, if_false, false_or, true_and]
      exact stat_isDir_iff fs _
    · simp [h2, h0]

theorem toValid_toRaw (c : Config) : c.toRaw.toValid = c := by
  simp only [Config.toRaw, RawConfig.toValid, toValidUTF8_ofString]

theorem toRaw_toValid (c : RawConfig) (h : c.ValidUTF8) : c.toValid.toRaw = c := by
  obtain ⟨h1, h2, h3, h4, h5⟩ := h
  unfold GoString.ValidUTF8 at h1 h2 h3 h4 h5
  simp only [Config.toRaw, RawConfig.toValid, h1, h2, h3, h4, h5]

theorem toRaw_validUTF8 (c : Config) : c.toRaw.ValidUTF8 :=
  ⟨validUTF8_ofString _, validUTF8_ofString _, validUTF8_ofString _, validUTF8_ofString _,
    validUTF8_ofString _⟩

/-- The runes of a valid Go string are the characters of its text. -/
theorem runes_of_valid (g : GoString) (h : GoString.ValidUTF8 g) :
    g.runes = (GoString.toValidUTF8 g).data.map some :=
  (congrArg GoString.runes h.symm).trans (runes_ofString _)

theorem escapeRunes_map_some (s : List Char) : escapeRunes (s.map some) = escapeChars s := by
  induction s with
  | nil => rfl
  | cons c cs ih =>
    show escapeRune (some c) ++ escapeRunes (cs.map some) = escapeChar c ++ escapeChars cs
    rw [ih]
    rfl

/-- The encoder writes a valid Go string as it writes its text. -/
theorem encodeGoString_of_valid (g : GoString) (h : GoString.ValidUTF8 g) :
    encodeGoString g = encodeString (GoString.toValidUTF8 g) := by
  unfold encodeGoString encodeString
  rw [runes_of_valid g h, escapeRunes_map_some]

/-- A Go string has no byte exactly when its text is empty. -/
theorem toValidUTF8_eq_empty (g : GoString) : GoString.toValidUTF8 g = "" ↔ g = [] := by
  cases g with
  | nil => exact ⟨fun _ => rfl, fun _ => rfl⟩
  | cons b rest =>
    constructor
    · intro h
      have h2 := congrArg String.data h
      simp [GoString.toValidUTF8, GoString.runes, decodeRunes] at h2
    · intro h
      cases h

theorem rawMembers_of_valid (c : RawConfig) (h : c.ValidUTF8) :
    rawMembers c = configMembers c.toValid := by
  obtain ⟨h1, h2, h3, h4, h5⟩ := h
  simp only [rawMembers, configMembers, RawConfig.toValid, encodeGoString_of_valid _ h1,
    encodeGoString_of_valid _ h2, encodeGoString_of_valid _ h3, encodeGoString_of_valid _ h4,
    encodeGoString_of_valid _ h5, toValidUTF8_eq_empty]

/-- Saving a configuration whose strings are valid UTF-8 is saving the
configuration over the texts of its strings. -/
theorem rawSave_eq (c : RawConfig) (fs : FS) (d : String) (h : c.ValidUTF8) :
    c.Save fs d = c.toValid.Save fs d := by
  unfold RawConfig.Save Config.Save MarshalIndentRaw MarshalIndent
  rw [rawMembers_of_valid c h]

/-- `DatabasePath` reads the environment only to compare the override with
"1". -/
theorem databasePath_env_congr (c : Config) (env1 env2 : Env) (fs : FS) (d : String)
    (h : Getenv env1 "BD_LEGACY_LAYOUT" = "1" ↔ Getenv env2 "BD_LEGACY_LAYOUT" = "1") :
    c.DatabasePath env1 fs d = c.DatabasePath env2 fs d := by
  by_cases h1 : Getenv env1 "BD_LEGACY_LAYOUT" = "1"
  · have h2 := h.1 h1
    simp only [Config.DatabasePath, h1, h2, if_true]
  · have h2 : ¬ Getenv env2 "BD_LEGACY_LAYOUT" = "1" := fun e => h1 (h.2 e)
    simp only [Config.DatabasePath, Config.useVarLayout, h1, h2, if_false]

/-! ## The claims -/

/-- C1: when BD_LEGACY_LAYOUT is "1", DatabasePath returns the flat path
Join(d, c.Database), whatever the layout field and the file system are. -/
theorem databasePath_legacy_override (c : Config) (env : Env) (fs : FS) (d : String)
    (h : env "BD_LEGACY_LAYOUT" = some "1") :
    c.DatabasePath env fs d = Join [d, c.Database] := by
  simp [Config.DatabasePath, Getenv, h]

/-- C1 at a concrete input: override set, Layout v2, var/ and both database files
present; the flat path is returned. -/
theorem databasePath_legacy_override_witness :
    envLegacy "1" "BD_LEGACY_LAYOUT" = some "1" ∧
    ({ DefaultConfig with Layout := "v2" } : Config).DatabasePath (envLegacy "1")
      (fsOf [("/r/var", .dir 0o755), ("/r/var/beads.db", .file "" 0o644),
             ("/r/beads.db", .file "" 0o644)]) "/r" = "/r/beads.db" :=
  ⟨by decide, databasePath_legacy_override _ _ _ _ (by decide)⟩

/-- C2, as stated, fails: the nested file exists, below a var/ that the process
may not search; `os.Stat` of it is refused, and DatabasePath returns the flat
path where the claim says the nested one. -/
theorem databasePath_first_existing_counterexample :
    Getenv envEmpty "BD_LEGACY_LAYOUT" ≠ "1" ∧
    (fsBoth.sealed "/r/var").Exists (Join ["/r", "var", "beads.db"]) ∧
    ({ DefaultConfig with Layout := "v2" } : Config).DatabasePath envEmpty
      (fsBoth.sealed "/r/var") "/r" = Join ["/r", "beads.db"] ∧
    Join ["/r", "beads.db"] ≠ Join ["/r", "var", "beads.db"] := by
  decide

/-- C2, amended: without the override, DatabasePath returns the first candidate
on which `os.Stat` succeeds, in the order nested, flat: the nested path when the
nested file is found, otherwise the flat path when the flat file is found; the
layout field plays no part. -/
theorem databasePath_first_existing (c : Config) (env : Env) (fs : FS) (d : String)
    (henv : Getenv env "BD_LEGACY_LAYOUT" ≠ "1") :
    (fs.StatOk (Join [d, "var", c.Database]) →
      c.DatabasePath env fs d = Join [d, "var", c.Database]) ∧
    (¬ fs.StatOk (Join [d, "var", c.Database]) → fs.StatOk (Join [d, c.Database]) →
      c.DatabasePath env fs d = Join [d, c.Database]) := by
  constructor
  · rintro ⟨info, hi⟩
    simp [Config.DatabasePath, henv, hi]
  · intro hv hr
    obtain ⟨info, hi⟩ := hr
    obtain ⟨e, he⟩ := stat_error_of_not_statOk fs _ hv
    simp [Config.DatabasePath, henv, hi, he]

/-- C2, amended, at concrete inputs: both files present and Layout v1 gives the nested path;
only the flat file present and Layout v2 gives the flat path. -/
theorem databasePath_first_existing_witness :
    ({ DefaultConfig with Layout := "v1" } : Config).DatabasePath envEmpty
      (fsOf [("/r/var", .dir 0o755), ("/r/var/beads.db", .file "" 0o644),
             ("/r/beads.db", .file "" 0o644)]) "/r" = "/r/var/beads.db" ∧
    ({ DefaultConfig with Layout := "v2" } : Config).DatabasePath (envLegacy "0")
      (fsOf [("/r/var", .dir 0o755), ("/r/beads.db", .file "" 0o644)]) "/r" = "/r/beads.db" :=
  ⟨(databasePath_first_existing _ _ _ _ (by decide)).1 (by decide),
   (databasePath_first_existing _ _ _ _ (by decide)).2 (by decide) (by decide)⟩

/-- C3, as stated, fails: Layout is empty, no database file exists, and d/var
exists and is a directory, but in a d that the process may not search;
`os.Stat` of d/var is refused, and DatabasePath returns the flat path where the
claim says the nested one. -/
theorem databasePath_new_file_counterexample :
    Getenv envEmpty "BD_LEGACY_LAYOUT" ≠ "1" ∧
    ¬ ((fsOf [("/r", .dir 0o755), ("/r/var", .dir 0o755)]).sealed "/r").Exists
      (Join ["/r", "var", "beads.db"]) ∧
    ¬ ((fsOf [("/r", .dir 0o755), ("/r/var", .dir 0o755)]).sealed "/r").Exists
      (Join ["/r", "beads.db"]) ∧
    DefaultConfig.Layout = "" ∧
    ((fsOf [("/r", .dir 0o755), ("/r/var", .dir 0o755)]).sealed "/r").IsDir
      (Join ["/r", "var"]) ∧
    DefaultConfig.DatabasePath envEmpty
      ((fsOf [("/r", .dir 0o755), ("/r/var", .dir 0o755)]).sealed "/r") "/r"
      = Join ["/r", "beads.db"] ∧
    Join ["/r", "beads.db"] ≠ Join ["/r", "var", "beads.db"] := by
  decide

/-- C3, amended: without the override and with `os.Stat` finding neither the
nested nor the flat file, DatabasePath returns the nested path when Layout is
"v2", or Layout is empty and `os.Stat` of d/var succeeds and reports a
directory, and the flat path in every other case. -/
theorem databasePath_new_file (c : Config) (env : Env) (fs : FS) (d : String)
    (henv : Getenv env "BD_LEGACY_LAYOUT" ≠ "1")
    (hv : ¬ fs.StatOk (Join [d, "var", c.Database]))
    (hr : ¬ fs.StatOk (Join [d, c.Database])) :
    c.DatabasePath env fs d =
      if c.Layout = "v2" ∨ (c.Layout = "" ∧ fs.StatDir (Join [d, "var"]))
      then Join [d, "var", c.Database] else Join [d, c.Database] := by
  have hu := useVarLayout_iff c env fs d henv
  obtain ⟨e1, he1⟩ := stat_error_of_not_statOk fs _ hv
  obtain ⟨e2, he2⟩ := stat_error_of_not_statOk fs _ hr
  simp only [Config.DatabasePath, henv, if_false, he1, he2]
  by_cases hc : c.Layout = "v2" ∨ (c.Layout = "" ∧ fs.StatDir (Join [d, "var"]))
  · rw [if_pos hc, if_pos (hu.2 hc)]
  · rw [if_neg hc, if_neg (fun h => hc (hu.1 h))]

/-- C3, amended, at concrete inputs, no database file present: Layout v2; Layout v1 with
var/ present; empty Layout with var/ a directory; empty Layout with var a file;
an unknown Layout. -/
theorem databasePath_new_file_witness :
    ({ DefaultConfig with Layout := "v2" } : Config).DatabasePath envEmpty (fsOf []) "/r"
        = "/r/var/beads.db" ∧
    ({ DefaultConfig with Layout := "v1" } : Config).DatabasePath envEmpty
        (fsOf [("/r/var", .dir 0o755)]) "/r" = "/r/beads.db" ∧
    DefaultConfig.DatabasePath envEmpty (fsOf [("/r/var", .dir 0o755)]) "/r"
        = "/r/var/beads.db" ∧
    DefaultConfig.DatabasePath envEmpty (fsOf [("/r/var", .file "" 0o644)]) "/r"
        = "/r/beads.db" ∧
    ({ DefaultConfig with Layout := "future" } : Config).DatabasePath envEmpty
        (fsOf [("/r/var", .dir 0o755)]) "/r" = "/r/beads.db" :=
  ⟨databasePath_new_file _ _ _ _ (by decide) (by decide) (by decide),
   databasePath_new_file _ _ _ _ (by decide) (by decide) (by decide),
   databasePath_new_file _ _ _ _ (by decide) (by decide) (by decide),
   databasePath_new_file _ _ _ _ (by decide) (by decide) (by decide),
   databasePath_new_file _ _ _ _ (by decide) (by decide) (by decide)⟩

/-- C4, as stated, fails: the directory holds neither metadata.json nor
config.json, but the process may not search it; the read of metadata.json is
refused and Load returns a read failure. -/
theorem load_absent_counterexample :
    ¬ ((fsOf [("/r", .dir 0o755)]).sealed "/r").Exists (ConfigPath "/r") ∧
    ¬ ((fsOf [("/r", .dir 0o755)]).sealed "/r").Exists (Join ["/r", "config.json"]) ∧
    (Load ((fsOf [("/r", .dir 0o755)]).sealed "/r") "/r").1 =
      (none, some (.wrapped "reading config"
        (.pathError "open" "/r/metadata.json" .EACCES))) := by
  decide

/-- C4, amended: when the reads of metadata.json and of config.json both report
that the file does not exist (neither is there and nothing on the way refuses
the process), Load returns no config and no error, and leaves the file system
as it was. -/
theorem load_absent (fs : FS) (d : String) (e1 e2 : Error)
    (h1 : ReadFile fs (ConfigPath d) = .error e1) (hn1 : IsNotExist e1 = true)
    (h2 : ReadFile fs (Join [d, "config.json"]) = .error e2) (hn2 : IsNotExist e2 = true) :
    Load fs d = ((none, none), fs) := by
  simp only [Load, h1, hn1, h2, hn2, if_true]

/-- C4, amended, at a concrete input: an empty directory. -/
theorem load_absent_witness :
    (Load (fsOf [("/r", .dir 0o755)]) "/r").1 = (none, none) :=
  congrArg Prod.fst (load_absent (fsOf [("/r", .dir 0o755)]) "/r"
    (.pathError "open" "/r/metadata.json" .ENOENT) (.pathError "open" "/r/config.json" .ENOENT)
    (by decide) (by decide) (by decide) (by decide))

/-- C5, as stated, fails: the directory holds a parseable config.json and no
metadata.json, yet on a read-only file system Load returns the migration error
and no config; and when config.json cannot be unlinked, Load succeeds and
config.json is still there. -/
theorem load_migration_counterexample :
    (¬ fsLegacy.readOnly.Exists "/r/metadata.json" ∧
      ReadFile fsLegacy.readOnly "/r/config.json" = .ok legacyText ∧
      Unmarshal legacyText = .ok legacyConfig ∧
      (Load fsLegacy.readOnly "/r").1 =
        (none, some (.wrapped "migrating config to metadata.json"
          (.wrapped "writing config" (.pathError "open" "/r/metadata.json" .EROFS)))) ∧
      (Load fsLegacy.readOnly "/r").1 ≠ (some legacyConfig, none)) ∧
    (¬ (fsLegacy.pinned "/r/config.json").Exists "/r/metadata.json" ∧
      ReadFile (fsLegacy.pinned "/r/config.json") "/r/config.json" = .ok legacyText ∧
      (Load (fsLegacy.pinned "/r/config.json") "/r").1 = (some legacyConfig, none) ∧
      (Load (fsLegacy.pinned "/r/config.json") "/r").2.Exists "/r/config.json") := by
  decide

/-- C5, amended: when the read of metadata.json reports that the file does not
exist and the read of config.json gives a text that decodes to `cfg`, and the
system lets metadata.json be written, Load returns `cfg` and no error, and
afterwards metadata.json is a file whose text decodes to `cfg`; config.json is
gone when the system lets it be unlinked. -/
theorem load_migrates (fs : FS) (d data : String) (cfg : Config) (e0 : Error)
    (hmeta : ReadFile fs (ConfigPath d) = .error e0) (hne0 : IsNotExist e0 = true)
    (hlegacy : ReadFile fs (Join [d, "config.json"]) = .ok data)
    (hparse : Unmarshal data = .ok cfg)
    (hw : fs.writeErr (ConfigPath d) = none) :
    (Load fs d).1 = (some cfg, none) ∧
    (∃ data2 mode2, (Load fs d).2.node (ConfigPath d) = some (.file data2 mode2) ∧
      Unmarshal data2 = .ok cfg) ∧
    (fs.removeErr (Join [d, "config.json"]) = none →
      ¬ (Load fs d).2.Exists (Join [d, "config.json"])) := by
  have hnone := readFile_notExist_node fs _ e0 hmeta hne0
  obtain ⟨mode, hnode⟩ := readFile_ok_node fs _ data hlegacy
  have hne := configPath_ne_legacy d
  have hrange := unmarshal_inRange data cfg hparse
  have hL : Load fs d = ((some cfg, none),
      (Remove (fs.set (ConfigPath d) (some (.file (String.mk (configText cfg))
        (0o600 ^^^ (0o600 &&& fs.umask))))) (Join [d, "config.json"])).2) := by
    rw [load_legacy_eq fs d data cfg e0 hmeta hne0 hlegacy hparse, save_eq, hw, hnone]
  rw [hL]
  refine ⟨rfl, ⟨String.mk (configText cfg), 0o600 ^^^ (0o600 &&& fs.umask), ?_,
    unmarshal_configText cfg hrange.1 hrange.2⟩, ?_⟩
  · show (Remove _ _).2.node (ConfigPath d) = _
    unfold Remove
    split
    · exact set_node_same _ _ _
    · split
      · exact set_node_same _ _ _
      · show (FS.set _ _ _).node (ConfigPath d) = _
        rw [set_node_other _ _ _ _ hne]
        exact set_node_same _ _ _
  · intro hr
    have hr2 : (fs.set (ConfigPath d) (some (.file (String.mk (configText cfg))
        (0o600 ^^^ (0o600 &&& fs.umask))))).removeErr (Join [d, "config.json"]) = none := hr
    have hn2 : (fs.set (ConfigPath d) (some (.file (String.mk (configText cfg))
        (0o600 ^^^ (0o600 &&& fs.umask))))).node (Join [d, "config.json"])
        = some (.file data mode) := by
      rw [set_node_other _ _ _ _ (Ne.symm hne)]
      exact hnode
    show ¬ (Remove _ _).2.Exists _
    simp only [Remove, hr2, hn2, FS.Exists, set_node_same]
    simp

/-- C5, amended, at a concrete input: a directory holding only the legacy file. -/
theorem load_migrates_witness :
    (Load fsLegacy "/r").1 = (some legacyConfig, none) ∧
    (∃ data2 mode2, (Load fsLegacy "/r").2.node "/r/metadata.json" = some (.file data2 mode2) ∧
      Unmarshal data2 = .ok legacyConfig) ∧
    ¬ (Load fsLegacy "/r").2.Exists "/r/config.json" :=
  have h := load_migrates fsLegacy "/r" legacyText legacyConfig
    (.pathError "open" "/r/metadata.json" .ENOENT)
    (by decide) (by decide) (by decide) (by decide) (by decide)
  ⟨h.1, h.2.1, h.2.2 (by decide)⟩

/-- C6, as stated, fails: under a umask that holds the owner read bit the saved
file has mode 0200, and Load after the successful Save returns a read failure;
and a configuration with a string that is not valid UTF-8 is saved with U+FFFD
in the place of the invalid byte, and Load returns that other string. -/
theorem save_load_roundtrip_counterexample :
    (DefaultConfig.toRaw.ValidUTF8 ∧
      (DefaultConfig.toRaw.Save ((fsOf [("/r", .dir 0o755)]).withUmask 0o400) "/r").1 = none ∧
      (Load (DefaultConfig.toRaw.Save ((fsOf [("/r", .dir 0o755)]).withUmask 0o400) "/r").2
        "/r").1 = (none, some (.wrapped "reading config"
          (.pathError "open" "/r/metadata.json" .EACCES)))) ∧
    (¬ rawInvalid.ValidUTF8 ∧
      (rawInvalid.Save (fsOf [("/r", .dir 0o755)]) "/r").1 = none ∧
      (Load (rawInvalid.Save (fsOf [("/r", .dir 0o755)]) "/r").2 "/r").1
        = (some { DefaultConfig with Database := "\uFFFD" }, none) ∧
      ({ DefaultConfig with Database := "\uFFFD" } : Config).toRaw ≠ rawInvalid) := by
  decide

/-- C6, amended: for a configuration whose strings are valid UTF-8 (and whose
int field is within 64 bits, as every Go `int` is), when Save succeeds and
metadata.json can be read afterwards, Load returns no error and a config equal
to the saved one in every field, those omitted from the JSON included, and
changes nothing. -/
theorem save_load_roundtrip (c : RawConfig) (fs : FS) (d data : String)
    (hutf8 : c.ValidUTF8) (hrange : c.InRange)
    (hsave : (c.Save fs d).1 = none)
    (hread : ReadFile (c.Save fs d).2 (ConfigPath d) = .ok data) :
    ∃ cfg : Config, Load (c.Save fs d).2 d = ((some cfg, none), (c.Save fs d).2) ∧
      cfg.toRaw = c := by
  have hrt := unmarshal_configText c.toValid hrange.1 hrange.2
  refine ⟨c.toValid, ?_, toRaw_toValid c hutf8⟩
  rw [rawSave_eq c fs d hutf8] at hsave hread ⊢
  rcases save_cases c.toValid fs d with ⟨err, he⟩ | ⟨mode, he, _, _⟩
  · rw [he] at hsave
    cases hsave
  · rw [he] at hread ⊢
    obtain ⟨m2, hn⟩ := readFile_ok_node _ _ data hread
    rw [set_node_same] at hn
    have hd : String.mk (configText c.toValid) = data := by
      cases hn
      rfl
    rw [load_primary_ok _ d data hread, ← hd, hrt]

/-- C6, amended, at a concrete input: a Config with an omitted and a negative
field, saved into an empty directory. -/
theorem save_load_roundtrip_witness :
    ∃ cfg : Config,
      Load ((({ DefaultConfig with Layout := "v2", DeletionsRetentionDays := -7 } :
          Config).toRaw).Save (fsOf [("/r", .dir 0o755)]) "/r").2 "/r"
        = ((some cfg, none),
           ((({ DefaultConfig with Layout := "v2", DeletionsRetentionDays := -7 } :
             Config).toRaw).Save (fsOf [("/r", .dir 0o755)]) "/r").2) ∧
      cfg.toRaw
        = ({ DefaultConfig with Layout := "v2", DeletionsRetentionDays := -7 } : Config).toRaw :=
  save_load_roundtrip _ (fsOf [("/r", .dir 0o755)]) "/r"
    "\x7b\n  \"database\": \"beads.db\",\n  \"jsonl_export\": \"issues.jsonl\",\n  \"layout\": \"v2\",\n  \"deletions_retention_days\": -7\n\x7d"
    (by decide) (by unfold RawConfig.InRange; decide) (by decide) (by decide)

/-- C7: Load reports read failures and parse failures as different errors, each
wrapping its cause, and never a config together with an error: a read error on
metadata.json other than not-exist gives the error "reading config"; a read
error on config.json other than not-exist gives "reading legacy config"; a text
that does not decode gives "parsing config" or "parsing legacy config"; and a
reported read failure never wraps a not-exist error; the read-failure and the
parse-failure errors are different values. -/
theorem load_errors (fs : FS) (d : String) :
    (∀ e, ReadFile fs (ConfigPath d) = .error e → IsNotExist e = false →
      Load fs d = ((none, some (.wrapped "reading config" e)), fs)) ∧
    (∀ e1 e, ReadFile fs (ConfigPath d) = .error e1 → IsNotExist e1 = true →
      ReadFile fs (Join [d, "config.json"]) = .error e → IsNotExist e = false →
      Load fs d = ((none, some (.wrapped "reading legacy config" e)), fs)) ∧
    (∀ data e, ReadFile fs (ConfigPath d) = .ok data → Unmarshal data = .error e →
      Load fs d = ((none, some (.wrapped "parsing config" (.json e))), fs)) ∧
    (∀ e1 data e, ReadFile fs (ConfigPath d) = .error e1 → IsNotExist e1 = true →
      ReadFile fs (Join [d, "config.json"]) = .ok data → Unmarshal data = .error e →
      Load fs d = ((none, some (.wrapped "parsing legacy config" (.json e))), fs)) ∧
    ((Load fs d).1.1 = none ∨ (Load fs d).1.2 = none) ∧
    (∀ msg e, (Load fs d).1.2 = some (.wrapped msg e) →
      msg = "reading config" ∨ msg = "reading legacy config" → IsNotExist e = false) ∧
    (∀ e j, Error.wrapped "reading config" e ≠ Error.wrapped "parsing config" (.json j) ∧
      Error.wrapped "reading legacy config" e
        ≠ Error.wrapped "parsing legacy config" (.json j)) := by
  refine ⟨?_, ?_, ?_, ?_, ?_, ?_, ?_⟩
  · intro e h1 h2
    simp [Load, h1, h2]
  · intro e1 e h1 h2 h3 h4
    simp [Load, h1, h2, h3, h4]
  · intro data e h1 h2
    simp [Load, h1, h2]
  · intro e1 data e h1 h2 h3 h4
    simp [Load, h1, h2, h3, h4]
  · unfold Load
    simp only
    repeat' split
    all_goals simp
  · intro msg e
    unfold Load
    simp only
    repeat' split
    all_goals
      intro h hm
      simp only [Option.some.injEq, Error.wrapped.injEq, reduceCtorEq] at h
    all_goals
      obtain ⟨rfl, rfl⟩ := h
      simp_all
  · intro e j
    constructor
    · intro h
      exact absurd (Error.wrapped.inj h).1 (by decide)
    · intro h
      exact absurd (Error.wrapped.inj h).1 (by decide)

/-- C7 at concrete inputs: metadata.json is a directory; config.json is a
directory; metadata.json holds a number where a string belongs; config.json is
cut short. -/
theorem load_errors_witness :
    Load (fsOf [("/r", .dir 0o755), ("/r/metadata.json", .dir 0o755)]) "/r"
      = ((none, some (.wrapped "reading config"
          (.pathError "read" "/r/metadata.json" .EISDIR))),
         fsOf [("/r", .dir 0o755), ("/r/metadata.json", .dir 0o755)]) ∧
    Load (fsOf [("/r", .dir 0o755), ("/r/config.json", .dir 0o755)]) "/r"
      = ((none, some (.wrapped "reading legacy config"
          (.pathError "read" "/r/config.json" .EISDIR))),
         fsOf [("/r", .dir 0o755), ("/r/config.json", .dir 0o755)]) ∧
    Load (fsOf [("/r/metadata.json", .file "\x7b\"database\": 5\x7d" 0o600)]) "/r"
      = ((none, some (.wrapped "parsing config" (.json (.typeMismatch "database")))),
         fsOf [("/r/metadata.json", .file "\x7b\"database\": 5\x7d" 0o600)]) ∧
    Load (fsOf [("/r/config.json", .file "\x7b\"database\"" 0o600)]) "/r"
      = ((none, some (.wrapped "parsing legacy config" (.json .malformed))),
         fsOf [("/r/config.json", .file "\x7b\"database\"" 0o600)]) :=
  ⟨(load_errors _ "/r").1 _ (by rfl) (by rfl),
   (load_errors _ "/r").2.1 (.pathError "open" "/r/metadata.json" .ENOENT) _ (by rfl) (by rfl)
     (by rfl) (by rfl),
   (load_errors _ "/r").2.2.1 _ _ (by rfl) (by rfl),
   (load_errors _ "/r").2.2.2.1 (.pathError "open" "/r/metadata.json" .ENOENT) _ _ (by rfl)
     (by rfl) (by rfl) (by rfl)⟩

/-- C8 at a failing input: a metadata.json that exists with mode 0644 is
rewritten by a successful Save and still has mode 0644, group and world read
bits included, where the claim says 0600. -/
theorem save_rewrite_keeps_mode :
    (DefaultConfig.Save (fsOf [("/r", .dir 0o755), ("/r/metadata.json", .file "old" 0o644)])
      "/r").1 = none ∧
    Stat (DefaultConfig.Save (fsOf [("/r", .dir 0o755), ("/r/metadata.json", .file "old" 0o644)])
      "/r").2 "/r/metadata.json" = .ok ⟨false, 0o644⟩ ∧
    (0o644 : Nat) ≠ 0o600 ∧ (0o644 : Nat) &&& 0o077 ≠ 0 ∧
    Stat (DefaultConfig.Save (fsOf [("/r", .dir 0o755)]) "/r").2 "/r/metadata.json"
      = .ok ⟨false, 0o600⟩ := by
  decide

/-- C9 at a failing input: a metadata.json without a database member decodes to
a Config with an empty Database, and DatabasePath then returns the directory
itself, or its var/ subdirectory, not the path of "beads.db"; the other
accessors return their defaults for the same Config. -/
theorem databasePath_empty_database :
    Unmarshal "\x7b\"backend\": \"sqlite\"\x7d" = .ok { zeroConfig with Backend := "sqlite" } ∧
    ({ zeroConfig with Backend := "sqlite" } : Config).DatabasePath envEmpty
      (fsOf [("/repo/.beads", .dir 0o755)]) "/repo/.beads" = "/repo/.beads" ∧
    ({ zeroConfig with Backend := "sqlite" } : Config).DatabasePath envEmpty
      (fsOf [("/repo/.beads", .dir 0o755), ("/repo/.beads/var", .dir 0o755)]) "/repo/.beads"
      = "/repo/.beads/var" ∧
    ({ zeroConfig with Backend := "sqlite" } : Config).DatabasePath (envLegacy "1")
      (fsOf [("/repo/.beads", .dir 0o755)]) "/repo/.beads" = "/repo/.beads" ∧
    ({ zeroConfig with Backend := "sqlite" } : Config).JSONLPath "/repo/.beads"
      = "/repo/.beads/issues.jsonl" ∧
    Join ["/repo/.beads", DefaultConfig.Database] = "/repo/.beads/beads.db" := by
  decide

/-- C10: JSONLPath is Join(d, "issues.jsonl") when JSONLExport is empty and
Join(d, JSONLExport) otherwise; it reads neither the environment nor the file
system, and no other field of the configuration changes it. -/
theorem jsonlPath_flat (c : Config) (d : String) :
    c.JSONLPath d =
      (if c.JSONLExport = "" then Join [d, "issues.jsonl"] else Join [d, c.JSONLExport]) ∧
    ∀ c2 : Config, c2.JSONLExport = c.JSONLExport → c2.JSONLPath d = c.JSONLPath d := by
  refine ⟨rfl, ?_⟩
  intro c2 h
  simp [Config.JSONLPath, h]

/-- C11: GetDeletionsRetentionDays returns the stored value when it is positive
and the default 3 when it is zero or negative; the result is at least 1. -/
theorem getDeletionsRetentionDays_default (c : Config) :
    c.GetDeletionsRetentionDays =
      (if 0 < c.DeletionsRetentionDays then c.DeletionsRetentionDays else 3) ∧
    1 ≤ c.GetDeletionsRetentionDays := by
  unfold Config.GetDeletionsRetentionDays DefaultDeletionsRetentionDays
  by_cases h : c.DeletionsRetentionDays ≤ 0
  · have h2 : ¬ 0 < c.DeletionsRetentionDays := by omega
    rw [if_pos h, if_neg h2]
    exact ⟨rfl, by norm_num⟩
  · have h2 : 0 < c.DeletionsRetentionDays := by omega
    rw [if_neg h, if_pos h2]
    exact ⟨rfl, by omega⟩

/-- C12: GetBackend returns "sqlite" when Backend is empty and Backend itself
otherwise; the result is never empty. -/
theorem getBackend_default (c : Config) :
    c.GetBackend = (if c.Backend = "" then "sqlite" else c.Backend) ∧
    c.GetBackend ≠ "" := by
  unfold Config.GetBackend BackendSQLite
  by_cases h : c.Backend = ""
  · rw [if_pos h]
    exact ⟨rfl, by decide⟩
  · rw [if_neg h]
    exact ⟨rfl, h⟩

/-- C13: when the read of metadata.json reports that the file does not exist,
the read of config.json gives a text that decodes to `cfg`, and saving `cfg`
fails, Load returns the error of the save wrapped as a migration error and no
config, and config.json is still there with its content; config.json is gone
after Load only if the save succeeded. -/
theorem load_migration_failure (fs : FS) (d data : String) (cfg : Config)
    (err e0 : Error)
    (hmeta : ReadFile fs (ConfigPath d) = .error e0) (hne0 : IsNotExist e0 = true)
    (hlegacy : ReadFile fs (Join [d, "config.json"]) = .ok data)
    (hparse : Unmarshal data = .ok cfg)
    (hfail : (cfg.Save fs d).1 = some err) :
    (Load fs d).1 = (none, some (.wrapped "migrating config to metadata.json" err)) ∧
    (∃ mode, (Load fs d).2.node (Join [d, "config.json"]) = some (.file data mode)) ∧
    (∀ (fs0 : FS) (e1 : Error), ReadFile fs0 (ConfigPath d) = .error e1 →
      IsNotExist e1 = true → ReadFile fs0 (Join [d, "config.json"]) = .ok data →
      ¬ (Load fs0 d).2.Exists (Join [d, "config.json"]) → (cfg.Save fs0 d).1 = none) := by
  have hL := load_legacy_eq fs d data cfg e0 hmeta hne0 hlegacy hparse
  obtain ⟨mode, hnode⟩ := readFile_ok_node fs _ data hlegacy
  refine ⟨?_, ?_, ?_⟩
  · rcases save_cases cfg fs d with ⟨err2, he⟩ | ⟨m, he, _, _⟩
    · rw [he] at hfail hL
      cases hfail
      rw [hL]
    · rw [he] at hfail
      cases hfail
  · rcases save_cases cfg fs d with ⟨err2, he⟩ | ⟨m, he, _, _⟩
    · rw [he] at hL
      rw [hL]
      exact ⟨mode, hnode⟩
    · rw [he] at hfail
      cases hfail
  · intro fs0 e1 hm0 hn0 hl0 hgone
    have hL0 := load_legacy_eq fs0 d data cfg e1 hm0 hn0 hl0 hparse
    obtain ⟨mode0, hnode0⟩ := readFile_ok_node fs0 _ data hl0
    rcases save_cases cfg fs0 d with ⟨err2, he⟩ | ⟨m, he, _, _⟩
    · rw [he] at hL0
      rw [hL0] at hgone
      exact absurd (exists_of_node fs0 _ _ hnode0) hgone
    · rw [he]

/-- C13 at a concrete input: the legacy directory on a read-only file system. -/
theorem load_migration_failure_witness :
    (Load fsLegacy.readOnly "/r").1 =
      (none, some (.wrapped "migrating config to metadata.json"
        (.wrapped "writing config" (.pathError "open" "/r/metadata.json" .EROFS)))) ∧
    (∃ mode, (Load fsLegacy.readOnly "/r").2.node "/r/config.json"
      = some (.file legacyText mode)) :=
  have h := load_migration_failure fsLegacy.readOnly "/r" legacyText legacyConfig
    (.wrapped "writing config" (.pathError "open" "/r/metadata.json" .EROFS))
    (.pathError "open" "/r/metadata.json" .ENOENT)
    (by decide) (by decide) (by decide) (by decide) (by decide)
  ⟨h.1, h.2.1⟩

/-- C14, as stated, fails in its last part: two directories hold a
metadata.json of the same content, one that the process may read and one that
it may not (mode 0200); Load returns the config of the first and no config for
the second, so the content alone does not fix the returned config. -/
theorem load_primary_frame_counterexample :
    (fsOf [("/r/metadata.json", .file legacyText 0o600)]).Exists (ConfigPath "/r") ∧
    (fsOf [("/r/metadata.json", .file legacyText 0o200)]).Exists (ConfigPath "/r") ∧
    (∃ m1 m2,
      (fsOf [("/r/metadata.json", .file legacyText 0o600)]).node (ConfigPath "/r")
        = some (.file legacyText m1) ∧
      (fsOf [("/r/metadata.json", .file legacyText 0o200)]).node (ConfigPath "/r")
        = some (.file legacyText m2)) ∧
    (Load (fsOf [("/r/metadata.json", .file legacyText 0o600)]) "/r").1
      = (some legacyConfig, none) ∧
    (Load (fsOf [("/r/metadata.json", .file legacyText 0o200)]) "/r").1
      = (none, some (.wrapped "reading config"
          (.pathError "open" "/r/metadata.json" .EACCES))) :=
  ⟨by decide, by decide, ⟨0o600, 0o200, by decide, by decide⟩, by decide, by decide⟩

/-- C14, amended: when an entry exists at metadata.json, Load leaves the file
system as it was: it neither migrates nor writes nor unlinks, and what it
returns is fixed by the outcome of reading metadata.json alone, whatever else
the file system holds (a config.json included): when the read gives a text, the
result is the decoding of that text; when the read fails, the result is that
read failure. -/
theorem load_primary_frame (fs : FS) (d : String) (h : fs.Exists (ConfigPath d)) :
    (Load fs d).2 = fs ∧
    (∀ data, ReadFile fs (ConfigPath d) = .ok data →
      (Load fs d).1 =
        match Unmarshal data with
        | .error e => (none, some (.wrapped "parsing config" (.json e)))
        | .ok cfg => (some cfg, none)) ∧
    (∀ e, ReadFile fs (ConfigPath d) = .error e →
      (Load fs d).1 = (none, some (.wrapped "reading config" e))) ∧
    (∀ fs2 : FS, fs2.Exists (ConfigPath d) →
      ReadFile fs2 (ConfigPath d) = ReadFile fs (ConfigPath d) →
      (Load fs2 d).1 = (Load fs d).1) := by
  have key : ∀ fs1 : FS, fs1.Exists (ConfigPath d) →
      (∀ data, ReadFile fs1 (ConfigPath d) = .ok data →
        Load fs1 d =
          ((match Unmarshal data with
            | .error e => (none, some (.wrapped "parsing config" (.json e)))
            | .ok cfg => (some cfg, none)), fs1)) ∧
      (∀ e, ReadFile fs1 (ConfigPath d) = .error e →
        Load fs1 d = ((none, some (.wrapped "reading config" e)), fs1)) := by
    intro fs1 h1
    constructor
    · intro data hd
      rw [load_primary_ok fs1 d data hd]
      cases Unmarshal data <;> rfl
    · intro e he
      exact load_primary_err fs1 d e he (isNotExist_false_of_exists fs1 _ e h1 he)
  obtain ⟨k1, k2⟩ := key fs h
  refine ⟨?_, ?_, ?_, ?_⟩
  · cases hr : ReadFile fs (ConfigPath d) with
    | ok data => rw [k1 data hr]
    | error e => rw [k2 e hr]
  · intro data hd
    rw [k1 data hd]
  · intro e he
    rw [k2 e he]
  · intro fs2 h2 heq
    obtain ⟨j1, j2⟩ := key fs2 h2
    cases hr : ReadFile fs (ConfigPath d) with
    | ok data => rw [k1 data hr, j1 data (heq.trans hr)]
    | error e => rw [k2 e hr, j2 e (heq.trans hr)]

/-- C14, amended, at concrete inputs: metadata.json and config.json both present, the
config of metadata.json is returned and nothing changes; metadata.json present
but not readable, the read failure is returned and nothing changes. -/
theorem load_primary_frame_witness :
    (Load (fsOf [("/r/metadata.json", .file legacyText 0o600),
                 ("/r/config.json", .file "null" 0o644)]) "/r")
      = ((some legacyConfig, none),
         fsOf [("/r/metadata.json", .file legacyText 0o600),
               ("/r/config.json", .file "null" 0o644)]) ∧
    (Load (fsOf [("/r/metadata.json", .file legacyText 0o200),
                 ("/r/config.json", .file "null" 0o644)]) "/r")
      = ((none, some (.wrapped "reading config"
            (.pathError "open" "/r/metadata.json" .EACCES))),
         fsOf [("/r/metadata.json", .file legacyText 0o200),
               ("/r/config.json", .file "null" 0o644)]) :=
  have h1 := load_primary_frame (fsOf [("/r/metadata.json", .file legacyText 0o600),
    ("/r/config.json", .file "null" 0o644)]) "/r" (by decide)
  have h2 := load_primary_frame (fsOf [("/r/metadata.json", .file legacyText 0o200),
    ("/r/config.json", .file "null" 0o644)]) "/r" (by decide)
  ⟨Prod.ext ((h1.2.1 legacyText (by decide)).trans (by decide)) h1.1,
   Prod.ext (h2.2.2.1 _ (by decide)) h2.1⟩

/-- C15: DatabasePath uses BD_LEGACY_LAYOUT only to test whether it equals "1":
with any other value it returns the path it returns when the variable is not
set. -/
theorem databasePath_override_literal (c : Config) (env1 env2 : Env) (fs : FS) (d v : String)
    (h1 : env1 "BD_LEGACY_LAYOUT" = some v) (hv : v ≠ "1")
    (h2 : env2 "BD_LEGACY_LAYOUT" = none) :
    c.DatabasePath env1 fs d = c.DatabasePath env2 fs d := by
  apply databasePath_env_congr
  have e1 : Getenv env1 "BD_LEGACY_LAYOUT" = v := by simp [Getenv, h1]
  have e2 : Getenv env2 "BD_LEGACY_LAYOUT" = "" := by simp [Getenv, h2]
  rw [e1, e2]
  constructor
  · intro e; exact absurd e hv
  · intro e; exact absurd e (by decide)

/-- C15 at concrete inputs: the values "", "0", "true" and "01" give the path of
the unset variable, here the nested one for Layout v2. -/
theorem databasePath_override_literal_witness :
    ({ DefaultConfig with Layout := "v2" } : Config).DatabasePath (envLegacy "") (fsOf []) "/r"
      = ({ DefaultConfig with Layout := "v2" } : Config).DatabasePath envEmpty (fsOf []) "/r" ∧
    ({ DefaultConfig with Layout := "v2" } : Config).DatabasePath (envLegacy "0") (fsOf []) "/r"
      = ({ DefaultConfig with Layout := "v2" } : Config).DatabasePath envEmpty (fsOf []) "/r" ∧
    ({ DefaultConfig with Layout := "v2" } : Config).DatabasePath (envLegacy "true") (fsOf [])
      "/r" = "/r/var/beads.db" ∧
    ({ DefaultConfig with Layout := "v2" } : Config).DatabasePath (envLegacy "01") (fsOf []) "/r"
      = ({ DefaultConfig with Layout := "v2" } : Config).DatabasePath envEmpty (fsOf []) "/r" :=
  ⟨databasePath_override_literal _ _ _ _ "/r" "" (by decide) (by decide) (by decide),
   databasePath_override_literal _ _ _ _ "/r" "0" (by decide) (by decide) (by decide),
   (databasePath_override_literal _ _ envEmpty _ "/r" "true" (by decide) (by decide)
      (by decide)).trans (by decide),
   databasePath_override_literal _ _ _ _ "/r" "01" (by decide) (by decide) (by decide)⟩

end Configfile
